import Mathlib

/-!
Verification development for the Slack-to-Confluence release tracker
(scripts/update_releases.py).  The core text-to-record extraction engine is
shallowly embedded: strings are lists of characters, each Python regular
expression is translated into a small backtracking pattern whose list of
results is ordered by the backtracking priority of the Python re module
(leftmost match first, within a match earlier alternatives and greedier or
lazier repetitions first, exactly as the source pattern demands), and every
function of the ReleaseTracker class that the specification talks about is
translated definition by definition.
-/

set_option maxRecDepth 10000

namespace ReleaseTracker

abbrev Str := List Char

/-- Pattern-matching state: the character just before the current position
(needed for word boundaries and for the caret anchor) and the remaining
input. -/
structure PS where
  prev : Option Char
  rest : Str
deriving DecidableEq

/-- A pattern is a backtracking matcher: it returns all ways to match a
prefix of the remaining input, ordered by regex backtracking priority, each
with its captured value and the state after the match. -/
def Pat (α : Type) : Type := PS → List (α × PS)

def ppure (a : α) : Pat α := fun st => [(a, st)]

def pfail : Pat α := fun _ => []

def pbind (p : Pat α) (f : α → Pat β) : Pat β :=
  fun st => (p st).flatMap fun ar => f ar.1 ar.2

def pmap (f : α → β) (p : Pat α) : Pat β := pbind p (fun a => ppure (f a))

def pseq (p : Pat α) (q : Pat β) : Pat β := pbind p (fun _ => q)

/-- Ordered alternation: results of the left branch take priority. -/
def palt (p q : Pat α) : Pat α := fun st => p st ++ q st

def palt3 (p q r : Pat α) : Pat α := palt p (palt q r)

def palt4 (p q r t : Pat α) : Pat α := palt p (palt q (palt r t))

/-- Match one character satisfying a predicate. -/
def pch (f : Char → Bool) : Pat Char :=
  fun st =>
    match st.rest with
    | [] => []
    | c :: r => if f c then [(c, ⟨some c, r⟩)] else []

def cEq (a : Char) : Char → Bool := fun c => c == a

/-- Literal, case sensitive. -/
def plit : Str → Pat Unit
  | [] => ppure ()
  | c :: cs => pseq (pch (cEq c)) (plit cs)

/-- Literal, case insensitive (re.IGNORECASE). -/
def plitCI : Str → Pat Unit
  | [] => ppure ()
  | c :: cs => pseq (pch (fun x => x.toLower == c.toLower)) (plitCI cs)

/-- Case-insensitive literal that captures the text as found in the input. -/
def plitCIc : Str → Pat Str
  | [] => ppure []
  | c :: cs =>
    pbind (pch (fun x => x.toLower == c.toLower)) fun x =>
      pmap (fun xs => x :: xs) (plitCIc cs)

def runLen (f : Char → Bool) : Str → Nat
  | [] => 0
  | c :: r => if f c then runLen f r + 1 else 0

def runTake (k : Nat) (st : PS) : Str × PS :=
  let t := st.rest.take k
  (t, ⟨match t.getLast? with | some c => some c | none => st.prev, st.rest.drop k⟩)

/-- Greedy bounded repetition of a character class: longest run first. -/
def prunGreedy (f : Char → Bool) (lo hi : Nat) : Pat Str :=
  fun st =>
    let m := min (runLen f st.rest) hi
    ((List.range' lo (m + 1 - lo)).reverse).map (fun k => runTake k st)

/-- Lazy bounded repetition of a character class: shortest run first. -/
def prunLazy (f : Char → Bool) (lo hi : Nat) : Pat Str :=
  fun st =>
    let m := min (runLen f st.rest) hi
    (List.range' lo (m + 1 - lo)).map (fun k => runTake k st)

/-- Greedy unbounded repetition, at least lo characters. -/
def prunGreedyU (f : Char → Bool) (lo : Nat) : Pat Str :=
  fun st => prunGreedy f lo st.rest.length st

/-- Lazy unbounded repetition, at least lo characters. -/
def prunLazyU (f : Char → Bool) (lo : Nat) : Pat Str :=
  fun st => prunLazy f lo st.rest.length st

/-- Greedy option: the present branch is preferred. -/
def popt (p : Pat α) : Pat (Option α) := palt (pmap some p) (ppure none)

def isWordChar (c : Char) : Bool := c.isAlpha || c.isDigit || c == '_'

/-- Python re whitespace class (ASCII part): space, tab, newline, carriage
return, vertical tab, form feed. -/
def isWsp (c : Char) : Bool :=
  c == ' ' || c == '\t' || c == '\n' || c == '\r' ||
  c == Char.ofNat 11 || c == Char.ofNat 12

def isBnd (prev next : Option Char) : Bool :=
  (match prev with | some c => isWordChar c | none => false) !=
  (match next with | some c => isWordChar c | none => false)

/-- Word boundary (backslash b). -/
def pbound : Pat Unit :=
  fun st => if isBnd st.prev st.rest.head? then [((), st)] else []

/-- Caret anchor: start of the scanned string (no MULTILINE flag is used in
the source). -/
def pstart : Pat Unit :=
  fun st => if st.prev = none then [((), st)] else []

/-- Dollar anchor: end of input or just before a final newline. -/
def pend : Pat Unit :=
  fun st => if st.rest = [] ∨ st.rest = ['\n'] then [((), st)] else []

/-- The re.match driver: anchored at the start, first result wins. -/
def rematch? (p : Pat α) (s : Str) : Option α :=
  ((p ⟨none, s⟩).head?).map (fun x => x.1)

def researchAux (p : Pat α) : Option Char → Str → Option α :=
  fun prev s =>
    match (p ⟨prev, s⟩).head? with
    | some x => some x.1
    | none =>
      match s with
      | [] => none
      | c :: r => researchAux p (some c) r

/-- The re.search driver: leftmost starting position wins, and at that
position the first result in backtracking order wins. -/
def research? (p : Pat α) (s : Str) : Option α := researchAux p none s

/-- The re.sub driver: scan left to right, replace each non-overlapping
match (every pattern used with sub in the source consumes at least one
character) with its captured replacement string.  Fuel is the length of the
string, which suffices because every step consumes at least one character. -/
def resubAux (p : Pat Str) : Nat → Option Char → Str → Str
  | 0, _, s => s
  | Nat.succ fuel, prev, s =>
    match s with
    | [] => []
    | c :: r =>
      match (p ⟨prev, s⟩).head? with
      | some (rep, st') =>
        if st'.rest.length < s.length then rep ++ resubAux p fuel st'.prev st'.rest
        else c :: resubAux p fuel (some c) r
      | none => c :: resubAux p fuel (some c) r

def resub (p : Pat Str) (s : Str) : Str := resubAux p (s.length + 1) none s

/-- Python str.replace: replace every occurrence of a literal. -/
def replaceAll (w rep : Str) (s : Str) : Str :=
  resub (pmap (fun _ => rep) (plit w)) s

/-- Python str.strip with no arguments: drop whitespace at both ends. -/
def stripStr (s : Str) : Str :=
  ((s.dropWhile isWsp).reverse.dropWhile isWsp).reverse

def lowerStr (s : Str) : Str := s.map Char.toLower

def upperStr (s : Str) : Str := s.map Char.toUpper

/-- Substring containment (the Python in operator on strings). -/
def containsSub (needle : Str) : Str → Bool
  | [] => needle.isPrefixOf []
  | c :: r => needle.isPrefixOf (c :: r) || containsSub needle r

/-- Python str.splitlines restricted to newline separators (the only line
separator occurring in the modelled messages); a trailing newline does not
produce a final empty line. -/
def splitlinesAux : Str → Str → List Str
  | acc, [] => [acc.reverse]
  | acc, c :: r =>
    if c = '\n' then acc.reverse :: splitlinesAux [] r
    else splitlinesAux (c :: acc) r

def splitlines (s : Str) : List Str :=
  if s = [] then []
  else if s.getLast? = some '\n' then (splitlinesAux [] s).dropLast
  else splitlinesAux [] s

/-! Slack cleanup patterns (the SLACK_ regular expressions of the source). -/

/-- The scheme part https?:// of the two link patterns. -/
def patScheme : Pat (Option Char) :=
  pbind (plit ("http".toList)) fun _ =>
  pbind (popt (pch (cEq 's'))) fun so =>
  pmap (fun _ => so) (plit ("://".toList))

/-- SLACK_LINK_RE, replaced by its second group (the label). -/
def patSlackLink : Pat Str :=
  pbind (pch (cEq '<')) fun _ =>
  pbind patScheme fun _ =>
  pbind (prunGreedyU (fun c => !(c == '>' || c == '|')) 1) fun _ =>
  pbind (pch (cEq '|')) fun _ =>
  pbind (prunGreedyU (fun c => !(c == '>')) 1) fun label =>
  pmap (fun _ => label) (pch (cEq '>'))

/-- SLACK_PLAIN_LINK_RE, replaced by its first group (the URL). -/
def patSlackPlainLink : Pat Str :=
  pbind (pch (cEq '<')) fun _ =>
  pbind patScheme fun so =>
  pbind (prunGreedyU (fun c => !(c == '>')) 1) fun body =>
  pmap
    (fun _ =>
      ("http".toList) ++ (match so with | some _ => ['s'] | none => []) ++
        ("://".toList) ++ body)
    (pch (cEq '>'))

/-- SLACK_SUBTEAM_RE, deleted. -/
def patSubteam : Pat Str :=
  pbind (plit ("<!subteam^".toList)) fun _ =>
  pbind (prunGreedyU (fun c => (decide ('A' ≤ c) && decide (c ≤ 'Z')) || c.isDigit) 1) fun _ =>
  pbind (popt (pseq (pch (cEq '|')) (prunGreedyU (fun c => !(c == '>')) 1))) fun _ =>
  pmap (fun _ => []) (pch (cEq '>'))

/-- SLACK_SPECIAL_RE, deleted. -/
def patSpecial : Pat Str :=
  pmap (fun _ => [])
    (palt3 (plit ("<!here>".toList)) (plit ("<!channel>".toList))
      (plit ("<!everyone>".toList)))

/-- SLACK_MENTION_RE, deleted. -/
def patMention : Pat Str :=
  pbind (plit ("<@".toList)) fun _ =>
  pbind (prunGreedyU (fun c => (decide ('A' ≤ c) && decide (c ≤ 'Z')) || c.isDigit) 1) fun _ =>
  pmap (fun _ => []) (pch (cEq '>'))

def emojiChar (c : Char) : Bool :=
  c.isAlpha || c.isDigit || c == '_' || c == '+' || c == '-'

/-- SLACK_EMOJI_RE (case insensitive via emojiChar accepting both cases),
deleted. -/
def patEmoji : Pat Str :=
  pbind (pch (cEq ':')) fun _ =>
  pbind (prunGreedyU emojiChar 1) fun _ =>
  pmap (fun _ => []) (pch (cEq ':'))

/-- The hash sign and the non-space run of HASH_TAG_RE. -/
def patHashTagCore : Pat Str :=
  pbind (pch (cEq '#')) fun _ =>
  pmap (fun _ => []) (prunGreedyU (fun c => !isWsp c) 1)

/-- HASH_TAG_RE: (start or whitespace) then a hash sign then non-space
characters, deleted; the leading alternation is distributed over the
continuation. -/
def patHashTag : Pat Str :=
  palt (pseq pstart patHashTagCore)
       (pbind (pch isWsp) fun _ => patHashTagCore)

/-- A whitespace run, replaced by a single space. -/
def patWsRun : Pat Str :=
  pmap (fun _ => [' ']) (prunGreedyU isWsp 1)

/-- The static method clean_slack_text of the source, step for step. -/
def clean_slack_text (s : Str) : Str :=
  if s.isEmpty then []
  else
    let t := resub patSlackLink s
    let t := resub patSlackPlainLink t
    let t := resub patSubteam t
    let t := resub patSpecial t
    let t := resub patMention t
    let t := resub patEmoji t
    let t := replaceAll ("@here".toList) [] t
    let t := replaceAll ("@channel".toList) [] t
    let t := resub patHashTag t
    stripStr (resub patWsRun t)

/-! App-name resolver: GENERIC_TITLES_RE, maps, normalize_app_candidate. -/

/-- GENERIC_TITLES_RE: anchored alternation of conversational openers,
case insensitive. -/
def patGenericTitles : Pat Unit :=
  palt (plitCI ("hi team".toList))
  (palt (pseq (plitCI ("new build is ready".toList)) (pmap (fun _ => ()) (popt (pch (cEq '!')))))
  (palt (pseq (plitCI ("team".toList)) (pmap (fun _ => ()) (pch (fun c => c == ',' || c == ' '))))
  (palt (plitCI ("i take your check mark".toList))
  (palt (pseq (plitCI ("please green".toList))
          (pseq (pmap (fun _ => ()) (popt (pch (cEq '-')))) (plitCI ("light".toList))))
        (pseq (plitCI ("pls green".toList))
          (pseq (pmap (fun _ => ()) (popt (pch (cEq '-')))) (plitCI ("light".toList))))))))

def genericTitlesMatch (s : Str) : Bool := (rematch? patGenericTitles s).isSome

def STOPWORDS : List Str :=
  [("thanks".toList), ("thx".toList), ("ok".toList), ("okay".toList), ("done".toList),
   ("approved".toList), ("approve".toList), ("team".toList), ("please".toList), ("pls".toList),
   ("today".toList), ("later".toList), ("prod".toList), ("production".toList), ("build".toList),
   ("ready".toList), ("release".toList), ("version".toList), ("push".toList),
   ("green-light".toList), ("greenlight".toList), ("check".toList), ("checked".toList),
   ("qa".toList), ("rollout".toList), ("rolling".toList), ("status".toList),
   ("published".toList), ("platform".toList), ("live".toList), ("android".toList),
   ("ios".toList), ("ipados".toList), ("workflow".toList)]

def ABBR_MAP : List (Str × Str) :=
  [(("DMN".toList), ("Dominoes".toList)), (("NM".toList), ("Number Match".toList)),
   (("SPD".toList), ("Spades".toList)), (("BTK".toList), ("Block Tok".toList))]

def CANONICAL_MAP : List (Str × Str) :=
  [(("block tok".toList), ("Block Tok".toList)), (("dominoes".toList), ("Dominoes".toList)),
   (("number match".toList), ("Number Match".toList)), (("spades".toList), ("Spades".toList)),
   (("klondike solitaire".toList), ("Klondike Solitaire".toList)),
   (("wordmaker".toList), ("Wordmaker".toList))]

/-- The character class of the edge-punctuation stripping sub in
normalize_app_candidate: backquote, asterisk, underscore, tilde,
whitespace, square brackets, parentheses, plus, hyphen, en dash, em dash,
vertical bar, colon, period, comma, semicolon. -/
def punctStripClass (c : Char) : Bool :=
  c == Char.ofNat 96 || c == '*' || c == '_' || c == '~' || isWsp c ||
  c == '[' || c == ']' || c == '(' || c == ')' || c == '+' || c == '-' ||
  c == Char.ofNat 8211 || c == Char.ofNat 8212 || c == '|' || c == ':' ||
  c == '.' || c == ',' || c == ';'

/-- Leading-run-or-trailing-run punctuation strip, deleted. -/
def patPunctStrip : Pat Str :=
  palt
    (pseq pstart (pmap (fun _ => []) (prunGreedyU punctStripClass 1)))
    (pbind (prunGreedyU punctStripClass 1) fun _ => pmap (fun _ => []) pend)

def patPlatformWord : Pat Str :=
  palt3 (plitCIc ("Android".toList)) (plitCIc ("iOS".toList)) (plitCIc ("iPadOS".toList))

/-- Trailing bracketed platform tag, deleted. -/
def patTrailTag : Pat Str :=
  pbind (prunGreedyU isWsp 0) fun _ =>
  pbind (pch (cEq '[')) fun _ =>
  pbind patPlatformWord fun _ =>
  pbind (pch (cEq ']')) fun _ =>
  pbind (prunGreedyU isWsp 0) fun _ =>
  pmap (fun _ => []) pend

/-- Name head with a parenthesised short abbreviation suffix; captures the
head (group 1). -/
def headParenClass (c : Char) : Bool :=
  c.isAlpha || c.isDigit || c == ' ' || c == '+' || c == '&' ||
  c == Char.ofNat 39 || c == '.' || c == '/' || c == '-'

def patHeadParen : Pat Str :=
  pbind (pch Char.isAlpha) fun c0 =>
  pbind (prunGreedy headParenClass 2 60) fun body =>
  pbind (prunGreedyU isWsp 0) fun _ =>
  pbind (pch (cEq '(')) fun _ =>
  pbind (prunGreedy (fun c => c.isAlpha || c.isDigit) 2 8) fun _ =>
  pbind (pch (cEq ')')) fun _ =>
  pmap (fun _ => c0 :: body) pend

/-- Trailing word app, application or game with an optional period, after
whitespace, deleted. -/
def patTrailAppWord : Pat Str :=
  pbind (prunGreedyU isWsp 1) fun _ =>
  pbind pbound fun _ =>
  pbind (palt3 (plitCI ("app".toList)) (plitCI ("application".toList)) (plitCI ("game".toList))) fun _ =>
  pbind pbound fun _ =>
  pbind (popt (pch (cEq '.'))) fun _ =>
  pmap (fun _ => []) pend

/-- Anchored alternation of rejected leading words (each followed by a word
boundary), as a boolean test. -/
def patWordAltB (ws : List Str) : Pat Unit :=
  ws.foldr (fun w acc => palt (pbind (plitCI w) fun _ => pbound) acc) pfail

def leadingRejectWords : List Str :=
  [("Build".toList), ("APP".toList), ("Application".toList), ("Game".toList),
   ("Approved".toList), ("Approve".toList), ("Status".toList), ("Platform".toList),
   ("Published".toList), ("Workflow".toList)]

/-- The edge cleanup of normalize_app_candidate: strip, edge punctuation
sub, trailing platform tag sub, strip. -/
def normalizeEdges (name : Str) : Str :=
  stripStr (resub patTrailTag (resub patPunctStrip (stripStr name)))

/-- The middle of normalize_app_candidate: parenthesised-abbreviation head
extraction, trailing app-word strip, canonical-name mapping. -/
def normalizeMid (n : Str) : Str :=
  let n1 :=
    match rematch? patHeadParen n with
    | some head => stripStr head
    | none => n
  let n2 := stripStr (resub patTrailAppWord n1)
  match CANONICAL_MAP.lookup (lowerStr n2) with
  | some canon => canon
  | none => n2

/-- The rejection checks at the end of normalize_app_candidate. -/
def normalizeChecks (n : Str) : Option Str :=
  if (n.filter Char.isAlpha).length < 2 then none
  else if lowerStr n ∈ STOPWORDS then none
  else if (rematch? (patWordAltB leadingRejectWords) n).isSome then none
  else if genericTitlesMatch n then none
  else some n

/-- The classmethod normalize_app_candidate of the source, step for step. -/
def normalize_app_candidate (name : Str) : Option Str :=
  if name.isEmpty then none
  else
    let n := normalizeEdges name
    match ABBR_MAP.lookup (upperStr n) with
    | some full => some full
    | none => normalizeChecks (normalizeMid n)

/-! App hints and inference. -/

/-- A case-insensitive word with boundaries on both sides, as a search
pattern component. -/
def patWordCI (w : Str) : Pat Unit :=
  pbind pbound fun _ => pbind (plitCI w) fun _ => pbound

def patHintDominoes : Pat Unit := palt (patWordCI ("Dominoes".toList)) (patWordCI ("DMN".toList))

def patHintNumberMatch : Pat Unit :=
  palt
    (pbind pbound fun _ =>
     pbind (plitCI ("Number".toList)) fun _ =>
     pbind (prunGreedyU isWsp 0) fun _ =>
     pbind (plitCI ("Match".toList)) fun _ => pbound)
    (patWordCI ("NM".toList))

def patHintSpades : Pat Unit := palt (patWordCI ("Spades".toList)) (patWordCI ("SPD".toList))

def patHintBlockTok : Pat Unit :=
  palt3
    (pbind pbound fun _ =>
     pbind (plitCI ("Block".toList)) fun _ =>
     pbind (prunGreedyU isWsp 0) fun _ =>
     pbind (plitCI ("Tok".toList)) fun _ => pbound)
    (patWordCI ("BTK".toList))
    (pbind pbound fun _ =>
     pbind (plitCI ("Block".toList)) fun _ =>
     pbind (prunGreedyU isWsp 0) fun _ =>
     pbind (plitCI ("tok".toList)) fun _ => pbound)

def patHintKlondike : Pat Unit :=
  pbind pbound fun _ =>
  pbind (plitCI ("Klondike".toList)) fun _ =>
  pbind (popt (pseq (prunGreedyU isWsp 1) (plitCI ("Solitaire".toList)))) fun _ =>
  pbound

def patHintWordmaker : Pat Unit := patWordCI ("Wordmaker".toList)

/-- The classmethod infer_app_from_text: ordered APP_HINTS scan, then the
abbreviation map scan. -/
def infer_app_from_text (s : Str) : Str :=
  if s.isEmpty then []
  else if (research? patHintDominoes s).isSome then ("Dominoes".toList)
  else if (research? patHintNumberMatch s).isSome then ("Number Match".toList)
  else if (research? patHintSpades s).isSome then ("Spades".toList)
  else if (research? patHintBlockTok s).isSome then ("Block Tok".toList)
  else if (research? patHintKlondike s).isSome then ("Klondike Solitaire".toList)
  else if (research? patHintWordmaker s).isSome then ("Wordmaker".toList)
  else if (research? (patWordCI ("DMN".toList)) s).isSome then ("Dominoes".toList)
  else if (research? (patWordCI ("NM".toList)) s).isSome then ("Number Match".toList)
  else if (research? (patWordCI ("SPD".toList)) s).isSome then ("Spades".toList)
  else if (research? (patWordCI ("BTK".toList)) s).isSome then ("Block Tok".toList)
  else []

/-! Explicit app markers in replies. -/

/-- The name class of APP_EXPLICIT_RE and THIS_IS_RE. -/
def appNameClass (c : Char) : Bool :=
  c.isAlpha || c.isDigit || c == ' ' || c == '+' || c == '(' || c == ')' ||
  c == '[' || c == ']' || c == '&' || c == Char.ofNat 39 || c == '.' ||
  c == '/' || c == '-'

/-- The captured name of APP_EXPLICIT_RE and THIS_IS_RE: a letter, then two
to sixty class characters (greedy), then a word boundary. -/
def patAppName : Pat Str :=
  pbind (pch Char.isAlpha) fun c0 =>
  pbind (prunGreedy appNameClass 2 60) fun body =>
  pmap (fun _ => c0 :: body) pbound

/-- APP_EXPLICIT_RE. -/
def patAppExplicit : Pat Str :=
  pbind pbound fun _ =>
  pbind (palt (plitCI ("app".toList))
        (palt (plitCI ("application".toList))
        (palt (plitCI ("game".toList))
        (palt (plitCI ("project".toList)) (plitCI ("title".toList)))))) fun _ =>
  pbind (prunGreedyU isWsp 0) fun _ =>
  pbind (pch (fun c => c == ':' || c == '=' || c == '-')) fun _ =>
  pbind (prunGreedyU isWsp 0) fun _ =>
  patAppName

/-- THIS_IS_RE. -/
def patThisIs : Pat Str :=
  pbind pbound fun _ =>
  pbind (palt3
          (pseq (plitCI ("this".toList)) (pseq (prunGreedyU isWsp 1) (plitCI ("is".toList))))
          (pseq (plitCI ("it".toList)) (pseq (prunGreedyU isWsp 1) (plitCI ("is".toList))))
          (plitCI (String.toList ("it" ++ String.singleton (Char.ofNat 39) ++ "s")))) fun _ =>
  pbind (prunGreedyU isWsp 1) fun _ =>
  patAppName

/-- The classmethod extract_explicit_app_from_text, step for step. -/
def extract_explicit_app_from_text (t : Str) : Option Str :=
  if t.isEmpty then none
  else
    let afterThis : Option Str :=
      match research? patThisIs t with
      | some nm2 =>
        match normalize_app_candidate nm2 with
        | some n => some n
        | none => none
      | none => none
    let afterLine : Option Str :=
      match afterThis with
      | some n => some n
      | none =>
        let line := stripStr t
        if line.contains '\n' then none
        else match normalize_app_candidate line with
          | some n => some n
          | none => none
    match research? patAppExplicit t with
    | some nm =>
      match normalize_app_candidate nm with
      | some n => some n
      | none => afterLine
    | none => afterLine

/-! Parsing patterns of parse_release_from_text. -/

/-- A dotted three-part version number, digits greedy. -/
def patVersion3 : Pat Str :=
  pbind (prunGreedyU Char.isDigit 1) fun a =>
  pbind (pch (cEq '.')) fun _ =>
  pbind (prunGreedyU Char.isDigit 1) fun b =>
  pbind (pch (cEq '.')) fun _ =>
  pmap (fun c => a ++ '.' :: b ++ '.' :: c) (prunGreedyU Char.isDigit 1)

/-- VERSION_ANY_RE: a version number with word boundaries. -/
def patVersionAny : Pat Str :=
  pbind pbound fun _ => pbind patVersion3 fun v => pmap (fun _ => v) pbound

/-- ANNOUNCE_RE: name, version, percent, platform. -/
def patAnnounce : Pat (Str × Str × Str × Str) :=
  pbind (plitCI ("latest version of".toList)) fun _ =>
  pbind (prunGreedyU isWsp 1) fun _ =>
  pbind (prunLazyU (fun c => !(c == '\n')) 1) fun nm =>
  pbind (prunGreedyU isWsp 0) fun _ =>
  pbind (pch (cEq '(')) fun _ =>
  pbind (prunGreedyU isWsp 0) fun _ =>
  pbind patVersion3 fun ver =>
  pbind (prunGreedyU isWsp 0) fun _ =>
  pbind (pch (cEq ')')) fun _ =>
  pbind (prunGreedyU isWsp 0) fun _ =>
  pbind (plitCI ("is ready for rollout to".toList)) fun _ =>
  pbind (prunGreedyU isWsp 0) fun _ =>
  pbind (prunGreedyU Char.isDigit 1) fun pct =>
  pbind (pch (cEq '%')) fun _ =>
  pbind (prunGreedyU isWsp 1) fun _ =>
  pbind (plitCI ("of users on".toList)) fun _ =>
  pbind (prunGreedyU isWsp 1) fun _ =>
  pmap (fun w => (nm, ver, pct, w)) (prunGreedyU isWordChar 1)

/-- INLINE_NAME_VERSION_RE: anchored lazy name, separator, the word
Version, a version number, trailing word boundary. -/
def patInline : Pat (Str × Str) :=
  pbind (prunGreedyU isWsp 0) fun _ =>
  pbind (prunLazyU (fun c => !(c == '\n')) 1) fun nm =>
  pbind (prunGreedyU isWsp 0) fun _ =>
  pbind (pch (fun c => c == '-' || c == Char.ofNat 8211 || c == ':' || c == '|')) fun _ =>
  pbind (prunGreedyU isWsp 0) fun _ =>
  pbind (plitCI ("version".toList)) fun _ =>
  pbind (pch (fun c => c == ':' || c == ' ')) fun _ =>
  pbind (prunGreedyU isWsp 0) fun _ =>
  pbind patVersion3 fun ver =>
  pmap (fun _ => (nm, ver)) pbound

/-- ANY_VERSION_KV_RE. -/
def patVersionKV : Pat Str :=
  pbind (prunGreedyU isWsp 0) fun _ =>
  pbind (plitCI ("version".toList)) fun _ =>
  pbind (prunGreedyU isWsp 0) fun _ =>
  pbind (pch (cEq ':')) fun _ =>
  pbind (prunGreedyU isWsp 0) fun _ =>
  pbind patVersion3 fun v =>
  pmap (fun _ => v) pbound

/-- ANY_BUILD_KV_RE. -/
def patBuildKV : Pat Str :=
  pbind (prunGreedyU isWsp 0) fun _ =>
  pbind (plitCI ("build".toList)) fun _ =>
  pbind (prunGreedyU isWsp 0) fun _ =>
  pbind (pch (cEq ':')) fun _ =>
  pbind (prunGreedyU isWsp 0) fun _ =>
  pbind (prunGreedyU (fun c => isWordChar c || c == '#' || c == '-') 1) fun b =>
  pmap (fun _ => b) pbound

/-- Shared shape of the three key-value patterns that capture the rest of
the line lazily up to trailing whitespace and the end. -/
def patKVRest (key : Pat Unit) : Pat Str :=
  pbind (prunGreedyU isWsp 0) fun _ =>
  pbind key fun _ =>
  pbind (prunGreedyU isWsp 0) fun _ =>
  pbind (pch (cEq ':')) fun _ =>
  pbind (prunGreedyU isWsp 0) fun _ =>
  pbind (prunLazyU (fun c => !(c == '\n')) 1) fun v =>
  pbind (prunGreedyU isWsp 0) fun _ =>
  pmap (fun _ => v) pend

/-- ANY_PLATFORM_KV_RE. -/
def patPlatformKV : Pat Str := patKVRest (plitCI ("platform".toList))

/-- STATUS_KV_RE. -/
def patStatusKV : Pat Str := patKVRest (plitCI ("status".toList))

/-- ROLLOUT_KV_RE (the alternation Rollout or Current Rollout before the
colon, in that order). -/
def patRolloutKV : Pat Str :=
  patKVRest (palt (plitCI ("rollout".toList)) (plitCI ("current rollout".toList)))

/-- ON_PLATFORM_RE, capturing the platform as found. -/
def patOnPlatform : Pat Str :=
  pbind pbound fun _ =>
  pbind (plitCI ("on".toList)) fun _ =>
  pbind (prunGreedyU isWsp 1) fun _ =>
  pbind patPlatformWord fun p =>
  pmap (fun _ => p) pbound

/-- BULLET_DOT_RE: optional whitespace, a bullet glyph, optional
whitespace; anchored, also used as a deleting sub. -/
def patBulletSub : Pat Str :=
  pbind pstart fun _ =>
  pbind (prunGreedyU isWsp 0) fun _ =>
  pbind (pch (fun c => c == Char.ofNat 8226 || c == '-' || c == '*')) fun _ =>
  pmap (fun _ => []) (prunGreedyU isWsp 0)

def bulletLine (l : Str) : Bool :=
  (rematch? patBulletSub l).isSome || l.head? == some (Char.ofNat 8226)

/-- NAME_LINE_RE: anchored lazy name without colon or parentheses, an
optional parenthesised tail, trailing whitespace, end. -/
def patNameLine : Pat Str :=
  pbind (prunGreedyU isWsp 0) fun _ =>
  pbind (prunLazyU (fun c => !(c == ':' || c == '(' || c == ')')) 1) fun nm =>
  pbind (popt
          (pseq (prunGreedyU isWsp 0)
            (pseq (pch (cEq '('))
              (pseq (prunGreedyU (fun c => !(c == ')')) 1) (pch (cEq ')')))))) fun _ =>
  pbind (prunGreedyU isWsp 0) fun _ =>
  pmap (fun _ => nm) pend

/-- The percent pattern of the rollout fallback in parse_releases. -/
def patPctAny : Pat Str :=
  pbind (prunGreedyU Char.isDigit 1) fun d => pmap (fun _ => d) (pch (cEq '%'))

/-! The release record.  Fields are exactly the keys of the result
dictionary built by parse_release_from_text; a missing key or None is
none, a present string value is some. -/

structure Release where
  app : Option Str
  version : Option Str
  build : Option Str
  platform : Option Str
  status : Option Str
  published : Option Str
  rollout : Option Str
  initial_rollout : Option Str
  current_rollout : Option Str
  key_changes : List Str
  timeline : List Str
deriving DecidableEq

def emptyRelease : Release :=
  ⟨none, none, none, none, none, none, none, none, none, [], []⟩

/-- Python truthiness of an optional string: present and non-empty. -/
def truthy : Option Str → Bool
  | none => false
  | some s => !s.isEmpty

/-- Python x or y for optional strings. -/
def pyOr (a b : Option Str) : Option Str := if truthy a then a else b

/-! Stages of parse_release_from_text, in source order. -/

/-- The inline name-version loop: first matching line wins (break). -/
def inlineScan (res : Release) : List Str → Release
  | [] => res
  | ln :: rest =>
    match rematch? patInline (stripStr ln) with
    | some nv =>
      { res with app := normalize_app_candidate (stripStr nv.1),
                 version := some (stripStr nv.2) }
    | none => inlineScan res rest

/-- Bullet collection below a Recent changes or Key changes header. -/
def collectBullets : List Str → List Str
  | [] => []
  | l :: rest =>
    if bulletLine l then
      let item := stripStr (resub patBulletSub l)
      (if item.isEmpty then [] else [clean_slack_text item]) ++ collectBullets rest
    else []

/-- One line of the key-value scan; rest is the list of following lines
(for bullet collection). -/
def kvVer (l : Str) (res : Release) : Release :=
  match rematch? patVersionKV l with
  | some v => { res with version := pyOr res.version (some v) }
  | none => res

def kvBuild (l : Str) (res : Release) : Release :=
  match rematch? patBuildKV l with
  | some b =>
    if !truthy res.build then
      { res with build := some ((clean_slack_text b).dropWhile (cEq '#')) }
    else res
  | none => res

def kvPlat (l : Str) (res : Release) : Release :=
  match rematch? patPlatformKV l with
  | some p =>
    if !truthy res.platform then { res with platform := some (clean_slack_text p) }
    else res
  | none => res

def kvStat (l : Str) (res : Release) : Release :=
  match rematch? patStatusKV l with
  | some v => { res with status := some (clean_slack_text v) }
  | none => res

def kvRoll (l : Str) (res : Release) : Release :=
  match rematch? patRolloutKV l with
  | some v => { res with current_rollout := some (clean_slack_text v) }
  | none => res

def kvChanges (l : Str) (rest : List Str) (res : Release) : Release :=
  if ("recent changes".toList).isPrefixOf (lowerStr l) ||
     ("key changes".toList).isPrefixOf (lowerStr l) then
    { res with key_changes := res.key_changes ++ collectBullets rest }
  else res

def kvStep (l : Str) (rest : List Str) (res : Release) : Release :=
  kvChanges l rest (kvRoll l (kvStat l (kvPlat l (kvBuild l (kvVer l res)))))

def kvLoop (res : Release) : List Str → Release
  | [] => res
  | l :: rest => kvLoop (kvStep l rest res) rest

/-- Platform fallback from an on-platform phrase. -/
def platformFill (s : Str) (res : Release) : Release :=
  if !truthy res.platform then
    match research? patOnPlatform s with
    | some p => { res with platform := some p }
    | none => res
  else res

/-- Head-line app candidate, rejecting generic titles. -/
def headApp (lines : List Str) (res : Release) : Release :=
  if !truthy res.app then
    match lines with
    | [] => res
    | l0 :: _ =>
      let head := clean_slack_text l0
      if genericTitlesMatch head then res
      else
        match rematch? patNameLine head with
        | some nm =>
          if (rematch? (patWordAltB [("Build".toList), ("APP".toList)]) head).isSome then res
          else
            match normalize_app_candidate nm with
            | some n => { res with app := some n }
            | none => res
        | none => res
  else res

/-- Status heuristics on the lowercased cleaned text. -/
def statusHeur (s : Str) (res : Release) : Release :=
  if !truthy res.status then
    let lower := lowerStr s
    { res with status := some (
      if containsSub ("being rolled back".toList) lower ||
         containsSub ("roll back".toList) lower then ("Being rolled back".toList)
      else if containsSub ("in production".toList) lower ||
              (research? (patWordCI ("production".toList)) lower).isSome then
        ("In production".toList)
      else if containsSub ("internal testing".toList) lower then ("Internal testing".toList)
      else if containsSub ("rollout".toList) lower ||
              containsSub ("rolled out".toList) lower then ("Staged rollout".toList)
      else if containsSub ("ready".toList) lower then ("Ready for rollout".toList)
      else ("Unknown".toList)) }
  else res

/-- App inference fallback. -/
def inferFill (s : Str) (res : Release) : Release :=
  if !truthy res.app then
    let inf := infer_app_from_text s
    if !inf.isEmpty then { res with app := some inf } else res
  else res

/-- Version-from-anywhere fallback. -/
def versionFill (s : Str) (res : Release) : Release :=
  if !truthy res.version then
    match research? patVersionAny s with
    | some v => { res with version := some v }
    | none => res
  else res

/-- The record a full-announcement match produces. -/
def announceRelease (g : Str × Str × Str × Str) : Release :=
  { emptyRelease with
      app := some (stripStr g.1),
      version := some (stripStr g.2.1),
      platform := some (stripStr g.2.2.2),
      initial_rollout := some (g.2.2.1 ++ ("%".toList)),
      rollout := some (g.2.2.1 ++ ("% staged rollout".toList)),
      status := some ("Ready for rollout".toList) }

/-- The method parse_release_from_text of the source, stage by stage. -/
def parse_release_from_text (text : Str) : Release :=
  let raw := text
  let s := clean_slack_text raw
  match research? patAnnounce s with
  | some g => announceRelease g
  | none =>
    let res := inlineScan emptyRelease (splitlines s)
    let lines := ((splitlines raw).map stripStr).filter (fun l => !l.isEmpty)
    let res := kvLoop res lines
    let res := platformFill s res
    let res := headApp lines res
    let res := statusHeur s res
    let res := inferFill s res
    versionFill s res

/-! Reply-merging patterns. -/

/-- PLATFORM_VERSION_ROLLED_RE: platform, version, percent. -/
def patPlatVerRolled : Pat (Str × Str × Str) :=
  pbind pbound fun _ =>
  pbind patPlatformWord fun plat =>
  pbind pbound fun _ =>
  pbind (prunGreedyU isWsp 1) fun _ =>
  pbind patVersion3 fun ver =>
  pbind pbound fun _ =>
  pbind (prunLazyU (fun c => !(c == '\n')) 0) fun _ =>
  pbind (plitCI ("rolled".toList)) fun _ =>
  pbind (prunGreedyU isWsp 1) fun _ =>
  pbind (plitCI ("out".toList)) fun _ =>
  pbind (prunGreedyU isWsp 1) fun _ =>
  pbind (plitCI ("to".toList)) fun _ =>
  pbind (prunGreedyU isWsp 1) fun _ =>
  pbind (prunGreedyU Char.isDigit 1) fun pct =>
  pmap (fun _ => (plat, ver, pct)) (pch (cEq '%'))

/-- PLATFORM_VERSION_LIVE_RE: platform, version. -/
def patPlatVerLive : Pat (Str × Str) :=
  pbind pbound fun _ =>
  pbind patPlatformWord fun plat =>
  pbind pbound fun _ =>
  pbind (prunGreedyU isWsp 1) fun _ =>
  pbind patVersion3 fun ver =>
  pbind pbound fun _ =>
  pbind (prunLazyU (fun c => !(c == '\n')) 0) fun _ =>
  pbind pbound fun _ =>
  pbind (plitCI ("is".toList)) fun _ =>
  pbind (prunGreedyU isWsp 1) fun _ =>
  pbind (plitCI ("live".toList)) fun _ =>
  pmap (fun _ => (plat, ver)) pbound

/-- VERSION_ROLLED_RE: version, percent. -/
def patVerRolled : Pat (Str × Str) :=
  pbind pbound fun _ =>
  pbind (plitCI ("version".toList)) fun _ =>
  pbind (prunGreedyU isWsp 1) fun _ =>
  pbind patVersion3 fun ver =>
  pbind pbound fun _ =>
  pbind (prunLazyU (fun c => !(c == '\n')) 0) fun _ =>
  pbind (plitCI ("rolled".toList)) fun _ =>
  pbind (prunGreedyU isWsp 1) fun _ =>
  pbind (plitCI ("out".toList)) fun _ =>
  pbind (prunGreedyU isWsp 1) fun _ =>
  pbind (plitCI ("to".toList)) fun _ =>
  pbind (prunGreedyU isWsp 1) fun _ =>
  pbind (prunGreedyU Char.isDigit 1) fun pct =>
  pmap (fun _ => (ver, pct)) (pch (cEq '%'))

/-- ROLLED_OUT_BANG_RE: a trailing percent rolled out fragment. -/
def patRolledBang : Pat Str :=
  pbind pbound fun _ =>
  pbind (prunGreedyU Char.isDigit 1) fun pct =>
  pbind (pch (cEq '%')) fun _ =>
  pbind (prunGreedyU isWsp 1) fun _ =>
  pbind (plitCI ("rolled".toList)) fun _ =>
  pbind (prunGreedyU isWsp 1) fun _ =>
  pbind (plitCI ("out".toList)) fun _ =>
  pbind (popt (pch (cEq '!'))) fun _ =>
  pmap (fun _ => pct) pend

/-- RELEASE_EMOJI_RE: a release emoji code with a percent number. -/
def patReleaseEmoji : Pat Str :=
  pbind (pch (cEq ':')) fun _ =>
  pbind (plitCI ("release".toList)) fun _ =>
  pbind (popt (pch (fun c => c == '_' || c == '-' || c == ' '))) fun _ =>
  pbind (prunGreedyU Char.isDigit 1) fun pct =>
  pmap (fun _ => pct) (pch (cEq ':'))

/-- The checked cue. -/
def patChecked : Pat Unit := patWordCI ("checked".toList)

/-- The green-light cue (two alternatives as in the source). -/
def patGreenLight : Pat Unit :=
  palt
    (pbind pbound fun _ =>
     pbind (plitCI ("green".toList)) fun _ =>
     pbind (prunGreedyU isWsp 0) fun _ =>
     pbind (plitCI ("light".toList)) fun _ =>
     pbind (popt (plitCI ("ed".toList))) fun _ => pbound)
    (pbind pbound fun _ =>
     pbind (plitCI ("green".toList)) fun _ =>
     pbind (popt (pch (cEq '-'))) fun _ =>
     pbind (plitCI ("light".toList)) fun _ =>
     pbind (popt (plitCI ("ed".toList))) fun _ => pbound)

/-- The submission cue. -/
def patSubmission : Pat Unit :=
  palt (plitCI ("can be submitted to store".toList))
       (plitCI ("ready for submission".toList))

/-- The explicit status or rollout line in a reply: key alternation in
source order, then a greedy rest-of-line value. -/
def patStatusLine : Pat (Str × Str) :=
  pbind (palt4 (plitCIc ("Current Status".toList)) (plitCIc ("Current Rollout".toList))
               (plitCIc ("Rollout".toList)) (plitCIc ("Status".toList))) fun k =>
  pbind (prunGreedyU isWsp 0) fun _ =>
  pbind (pch (cEq ':')) fun _ =>
  pbind (prunGreedyU isWsp 0) fun _ =>
  pmap (fun v => (k, v)) (prunGreedyU (fun c => !(c == '\n')) 1)

/-- SINGLE_BRACKETED_PLATFORM_RE. -/
def patBracketPlatform : Pat Str :=
  pbind (pch (cEq '[')) fun _ =>
  pbind patPlatformWord fun p =>
  pmap (fun _ => p) (pch (cEq ']'))

/-! The merge steps, one definition per block of the reply loop body. -/

def mrgPVR (txt : Str) (b : Release) : Release :=
  match research? patPlatVerRolled txt with
  | some g =>
    { b with platform := pyOr b.platform (some g.1),
             version := pyOr b.version (some g.2.1),
             rollout := some (g.2.2 ++ ("% staged rollout".toList)) }
  | none => b

def mrgPVL (txt : Str) (b : Release) : Release :=
  match research? patPlatVerLive txt with
  | some g =>
    { b with platform := pyOr b.platform (some g.1),
             version := pyOr b.version (some g.2),
             status := some ("In production".toList),
             timeline := b.timeline ++ [("Live".toList)] }
  | none => b

def mrgVR (txt : Str) (b : Release) : Release :=
  match research? patVerRolled txt with
  | some g =>
    if !truthy b.version then
      { b with version := some g.1,
               rollout := some (g.2 ++ ("% staged rollout".toList)) }
    else b
  | none => b

def mrgBang (txt : Str) (b : Release) : Release :=
  match research? patRolledBang txt with
  | some pct =>
    { b with rollout := some (pct ++ ("% staged rollout".toList)),
             timeline := b.timeline ++
               [("Rollout in progress (".toList) ++ pct ++ ("%)".toList)] }
  | none => b

def mrgEmoji (txt_raw : Str) (b : Release) : Release :=
  match research? patReleaseEmoji txt_raw with
  | some pct =>
    { b with rollout := some (pct ++ ("% staged rollout".toList)),
             timeline := b.timeline ++
               [("Rollout in progress (".toList) ++ pct ++ ("%)".toList)] }
  | none => b

/-- Build-card line: a build version header fills the version from the next
line when still unset. -/
def bcVer (l : Str) (rest : List Str) (b : Release) : Release :=
  if ("build version".toList).isPrefixOf (lowerStr l) then
    match rest with
    | nxt :: _ =>
      if !truthy b.version then { b with version := some (clean_slack_text nxt) } else b
    | [] => b
  else b

/-- Build-card line: a build number header overwrites the build from the
next line. -/
def bcNum (l : Str) (rest : List Str) (b : Release) : Release :=
  if ("build number".toList).isPrefixOf (lowerStr l) then
    match rest with
    | nxt :: _ => { b with build := some ((clean_slack_text nxt).dropWhile (cEq '#')) }
    | [] => b
  else b

/-- Build-card line: a recent changes header collects following bullets. -/
def bcChanges (l : Str) (rest : List Str) (b : Release) : Release :=
  if ("recent changes".toList).isPrefixOf (lowerStr l) then
    { b with key_changes := b.key_changes ++ collectBullets rest }
  else b

/-- The build-card inner loop over the stripped lines of the raw reply. -/
def buildCardLoop : Release → List Str → Release
  | b, [] => b
  | b, l :: rest => buildCardLoop (bcChanges l rest (bcNum l rest (bcVer l rest b))) rest

def mrgBuildCard (txt_raw : Str) (b : Release) : Release :=
  if containsSub ("Build Version:".toList) txt_raw ||
     containsSub ("Build Number:".toList) txt_raw ||
     containsSub ("Recent changes:".toList) txt_raw then
    buildCardLoop b ((splitlines txt_raw).map stripStr)
  else b

def mrgChecked (txt : Str) (b : Release) : Release :=
  if (research? patChecked txt).isSome then
    { b with timeline := b.timeline ++ [("Checked by QA".toList)] }
  else b

def mrgGreen (txt : Str) (b : Release) : Release :=
  if (research? patGreenLight txt).isSome then
    { b with timeline := b.timeline ++ [("Green-lighted".toList)],
             status := pyOr b.status (some ("Ready for rollout".toList)) }
  else b

def mrgSubmit (txt : Str) (b : Release) : Release :=
  if (research? patSubmission txt).isSome then
    { b with timeline := b.timeline ++ [("Ready for submission".toList)],
             status := pyOr b.status (some ("Ready for submission".toList)) }
  else b

def mrgStatusLine (txt_raw : Str) (b : Release) : Release :=
  match research? patStatusLine txt_raw with
  | some kv =>
    let val := clean_slack_text kv.2
    if containsSub ("status".toList) (lowerStr kv.1) then { b with status := some val }
    else { b with current_rollout := some val }
  | none => b

def mrgBracket (txt : Str) (b : Release) : Release :=
  if !truthy b.platform then
    match research? patBracketPlatform txt with
    | some p => { b with platform := some p }
    | none => b
  else b

/-- The whole body of the reply loop acting on the record fields. -/
def mergeBody (txt_raw txt : Str) (b : Release) : Release :=
  mrgBracket txt (mrgStatusLine txt_raw (mrgSubmit txt (mrgGreen txt (mrgChecked txt
    (mrgBuildCard txt_raw (mrgEmoji txt_raw (mrgBang txt (mrgVR txt
      (mrgPVL txt (mrgPVR txt b))))))))))

/-- State carried through the reply loop: the record, the latest explicit
app candidate, and the cleaned reply texts collected so far. -/
structure MergeSt where
  base : Release
  explicit_app : Option Str
  joined : List Str
deriving DecidableEq

def mergeStep (st : MergeSt) (txt_raw : Str) : MergeSt :=
  let txt := clean_slack_text txt_raw
  { base := mergeBody txt_raw txt st.base,
    explicit_app :=
      match extract_explicit_app_from_text txt with
      | some ea => some ea
      | none => st.explicit_app,
    joined := st.joined ++ [txt] }

/-- Python bool(name) and GENERIC_TITLES_RE.match(name). -/
def is_generic : Option Str → Bool
  | none => false
  | some s => !s.isEmpty && genericTitlesMatch s

def firstExplicit : List Str → Option Str
  | [] => none
  | l :: r =>
    match extract_explicit_app_from_text l with
    | some c => some c
    | none => firstExplicit r

/-- The app resolution after the reply loop: explicit candidate if the root
app is unset or generic, else hint inference over the joined reply text,
else the first explicit-marker scan. -/
def appResolve (ea : Option Str) (joinedList : List Str) (b0 : Release) : Release :=
  let b :=
    match ea with
    | some e => if !truthy b0.app || is_generic b0.app then { b0 with app := some e } else b0
    | none => b0
  if !truthy b.app || is_generic b.app then
    let inferred := infer_app_from_text (List.intercalate [' '] joinedList)
    if !inferred.isEmpty then { b with app := some inferred }
    else
      match firstExplicit joinedList with
      | some cand => { b with app := some cand }
      | none => b
  else b

/-- The version fallback over the joined reply text. -/
def mergeVersionFill (joinedList : List Str) (b : Release) : Release :=
  if !truthy b.version then
    match research? patVersionAny (List.intercalate [' '] joinedList) with
    | some v => { b with version := some v }
    | none => b
  else b

/-- The method merge_replies_into_release of the source: the reply loop,
then the app resolution, then the version fallback. -/
def merge_replies_into_release (base : Release) (replies : List Str) : Release :=
  let st := replies.foldl mergeStep ⟨base, none, []⟩
  mergeVersionFill st.joined (appResolve st.explicit_app st.joined st.base)

/-! The orchestrator parse_releases. -/

/-- One message: body text, timestamp, optional thread-root reference, and
the fetched reply bodies (present only on thread roots). -/
structure Msg where
  text : Str
  ts : ℚ
  thread_ts : Option ℚ
  replies : List Str
deriving DecidableEq

def pubFill (fmtDate : ℚ → Str) (ts : ℚ) (rel : Release) : Release :=
  if !truthy rel.published then { rel with published := some (fmtDate ts) } else rel

def pctFill (text : Str) (rel : Release) : Release :=
  if !truthy rel.rollout then
    match research? patPctAny text with
    | some p => { rel with rollout := some (p ++ ("% staged rollout".toList)) }
    | none => rel
  else rel

def isThreadRoot (msg : Msg) : Bool := decide (msg.thread_ts = some msg.ts)

def isSingle (msg : Msg) : Bool := decide (msg.thread_ts = none)

/-- The record assembled for one message before the acceptance filter:
builder, published fill, rollout-percent fill, then reply merging for a
thread root with replies. -/
def assembled (fmtDate : ℚ → Str) (msg : Msg) : Release :=
  let rel := parse_release_from_text msg.text
  let rel := pubFill fmtDate msg.ts rel
  let rel := pctFill msg.text rel
  if isThreadRoot msg && !msg.replies.isEmpty then
    merge_replies_into_release rel msg.replies
  else rel

/-- The per-message step of parse_releases: skip non-roots, assemble,
require a real app, require a substantive field. -/
def processMsg (fmtDate : ℚ → Str) (msg : Msg) : Option (Release × ℚ) :=
  if !(isThreadRoot msg || isSingle msg) then none
  else
    let rel := assembled fmtDate msg
    if !truthy rel.app || genericTitlesMatch (rel.app.getD []) then none
    else if truthy rel.version || truthy rel.status || !rel.key_changes.isEmpty then
      some (rel, msg.ts)
    else none

/-- The deduplication key: stripped app, a hyphen, stripped version, with
the empty string for missing values. -/
def relKey (r : Release × ℚ) : Str :=
  stripStr (r.1.app.getD []) ++ '-' :: stripStr (r.1.version.getD [])

/-- Insertion-ordered dictionary update: a new key is appended, a known key
keeps its position and is replaced only by a strictly greater timestamp. -/
def dictUpsert (key : Str) (r : Release × ℚ) :
    List (Str × (Release × ℚ)) → List (Str × (Release × ℚ))
  | [] => [(key, r)]
  | kv :: rest =>
    if kv.1 = key then (if r.2 > kv.2.2 then (kv.1, r) else kv) :: rest
    else kv :: dictUpsert key r rest

def dedupStep (acc : List (Str × (Release × ℚ))) (r : Release × ℚ) :
    List (Str × (Release × ℚ)) :=
  dictUpsert (relKey r) r acc

/-- Stable descending insertion by timestamp (the Python stable sort with
reverse=True). -/
def insDesc (x : Release × ℚ) : List (Release × ℚ) → List (Release × ℚ)
  | [] => [x]
  | y :: ys => if x.2 > y.2 then x :: y :: ys else y :: insDesc x ys

def sortDesc (l : List (Release × ℚ)) : List (Release × ℚ) :=
  l.foldl (fun acc x => insDesc x acc) []

/-- Deduplicate then sort newest first. -/
def dedupAndSort (l : List (Release × ℚ)) : List (Release × ℚ) :=
  sortDesc ((l.foldl dedupStep []).map (fun kv => kv.2))

/-- The method parse_releases of the source. -/
def parse_releases (fmtDate : ℚ → Str) (messages : List Msg) : List (Release × ℚ) :=
  dedupAndSort (messages.filterMap (processMsg fmtDate))

/-! Specification-side definitions used to state the claims, and the
concrete inputs of the claims. -/

/-- The acceptance predicate as the specification words it: a non-empty,
non-generic app and at least one of version, status, key changes. -/
def acceptSpec (r : Release) : Bool :=
  (truthy r.app && !genericTitlesMatch (r.app.getD [])) &&
  (truthy r.version || truthy r.status || !r.key_changes.isEmpty)

/-- App acceptability alone (the first filter of parse_releases). -/
def appOkB (r : Release) : Bool :=
  truthy r.app && !genericTitlesMatch (r.app.getD [])

/-- First-match-wins accumulation over the matched values of a key-value
field whose guard rechecks emptiness before every store. -/
def kvFirstWins (cur : Option Str) : List Str → Option Str
  | [] => cur
  | v :: rest => kvFirstWins (if truthy cur then cur else some v) rest

/-- Last-match-wins accumulation (unconditional store). -/
def kvLastWins (cur : Option Str) : List Str → Option Str
  | [] => cur
  | v :: rest => kvLastWins (some v) rest

/-- The latest reply whose cleaned text yields an explicit app candidate. -/
def latestExplicitApp : List Str → Option Str
  | [] => none
  | r :: rs =>
    match latestExplicitApp rs with
    | some x => some x
    | none => extract_explicit_app_from_text (clean_slack_text r)

/-- The app-resolution order of the Reply Merger as the specification
words it: the latest explicit candidate, else the hint-dictionary match on
the joined reply text, else the first explicit-marker scan, else the
original app. -/
def appResolveSpec (ea : Option Str) (j : List Str) (app0 : Option Str) : Option Str :=
  match ea with
  | some e => some e
  | none =>
    if !(infer_app_from_text (List.intercalate [' '] j)).isEmpty then
      some (infer_app_from_text (List.intercalate [' '] j))
    else
      match firstExplicit j with
      | some c => some c
      | none => app0

/-- Field-preservation relation used for the merge invariants: the second
record agrees with the first on app, published and initial rollout, only
appends to key changes and timeline, and keeps a non-empty version and
platform. -/
def Pres (a b : Release) : Prop :=
  b.app = a.app ∧ b.published = a.published ∧ b.initial_rollout = a.initial_rollout ∧
  (∃ t, b.key_changes = a.key_changes ++ t) ∧ (∃ t, b.timeline = a.timeline ++ t) ∧
  (truthy a.version = true → b.version = a.version) ∧
  (truthy a.platform = true → b.platform = a.platform)

/-- No two adjacent spaces. -/
def noDoubleSpace : Str → Bool
  | [] => true
  | [_] => true
  | a :: b :: r => !(a == ' ' && b == ' ') && noDoubleSpace (b :: r)

/-- Already-clean text: none of the markup trigger characters, whitespace
only as single internal spaces. -/
def cleanShape (s : Str) : Bool :=
  (s.all (fun c => !(c == '<' || c == ':' || c == '@' || c == '#') &&
                   (!(isWsp c) || c == ' '))) &&
  noDoubleSpace s && !(s.head? == some ' ') && !(s.getLast? == some ' ')

/-- The eight-line Spades message body of the round-trip scenario. -/
def c1body : Str :=
  ("Spades\nVersion: 2.5.3\nBuild: 481\nPlatform: Android\nStatus: In production\nRollout: 100%\nRecent changes:\n- Fixed crash on join\n- Improved matchmaking".toList)

/-- The record the Record Builder actually produces for c1body. -/
def c1record : Release :=
  { app := some ("Spades".toList), version := some ("2.5.3".toList),
    build := some ("481".toList), platform := some ("Android".toList),
    status := some ("In production".toList), published := none, rollout := none,
    initial_rollout := none, current_rollout := some ("100%".toList),
    key_changes := [("Fixed crash on join".toList), ("Improved matchmaking".toList)],
    timeline := [] }

/-- The announcement-sentence message of the spec scenario. -/
def c2body : Str :=
  ("The latest version of Klondike Solitaire (5.0.1) is ready for rollout to 10% of users on Android".toList)

/-- The same announcement followed by a conflicting key-value version
line. -/
def c2bodyKV : Str :=
  c2body ++ '\n' :: ("Version: 9.9.9".toList)

/-- The generic thread root of the rejection scenario. -/
def c3root : Str := ("Hi team, new build is ready!".toList)

/-- A reply with no app cue for the rejection scenario. -/
def c3reply : Str := ("thanks".toList)

/-- The double-status message refuting first-match-wins for Status. -/
def c7body : Str := ("Status: QA\nStatus: Live".toList)

/-- A base record with a non-empty build, for the merge-overwrite
counterexample. -/
def c8base : Release :=
  { emptyRelease with app := some ("Spades".toList),
                      version := some ("1.0.0".toList),
                      build := some ("481".toList) }

/-- A build-card reply that overwrites the build field. -/
def c8reply : Str := ("Build Number:\n500".toList)

/-- The normalizer input refuting idempotence. -/
def c9cex : Str := (":a@here:".toList)

/-- A standalone message used as acceptance witness. -/
def msgW : Msg := ⟨("Spades - Version: 1.2.3".toList), 5, none, []⟩

/-- The accepted record parse_releases produces for msgW under the empty
date formatter. -/
def relW : Release × ℚ :=
  ({ app := some ("Spades".toList), version := some ("1.2.3".toList),
     build := none, platform := none, status := some ("Unknown".toList),
     published := some [], rollout := none, initial_rollout := none,
     current_rollout := none, key_changes := [], timeline := [] }, 5)

/-- Two same-key records for the deduplication witness. -/
def wr1 : Release × ℚ :=
  ({ emptyRelease with app := some ("Spades".toList),
                       version := some ("1.0.0".toList) }, 1)

def wr2 : Release × ℚ :=
  ({ emptyRelease with app := some ("Spades".toList),
                       version := some ("1.0.0".toList),
                       build := some ("9".toList) }, 2)

/-- Running maximum over same-key records, the per-key abstraction of the
dictionary fold of parse_releases. -/
def rmStep (k : Str) (acc : Option (Release × ℚ)) (y : Release × ℚ) :
    Option (Release × ℚ) :=
  if relKey y = k then
    match acc with
    | none => some y
    | some v => if y.2 > v.2 then some y else some v
  else acc

/-! Theorems.  Helper lemmas first, claim theorems at the end. -/

theorem truthy_some_iff {s : Str} : truthy (some s) = true ↔ s ≠ [] := by
  simp [truthy]

theorem truthy_exists {o : Option Str} (h : truthy o = true) :
    ∃ s, o = some s ∧ s ≠ [] := by
  cases o with
  | none => simp [truthy] at h
  | some s => exact ⟨s, rfl, truthy_some_iff.mp h⟩

/-! Field lemmas for the key-value scan. -/

theorem kvVer_version (l : Str) (r : Release) :
    (kvVer l r).version =
      match rematch? patVersionKV l with
      | some v => pyOr r.version (some v)
      | none => r.version := by
  unfold kvVer; cases rematch? patVersionKV l <;> rfl

theorem kvVer_build (l : Str) (r : Release) : (kvVer l r).build = r.build := by
  unfold kvVer; cases rematch? patVersionKV l <;> rfl

theorem kvVer_platform (l : Str) (r : Release) : (kvVer l r).platform = r.platform := by
  unfold kvVer; cases rematch? patVersionKV l <;> rfl

theorem kvVer_status (l : Str) (r : Release) : (kvVer l r).status = r.status := by
  unfold kvVer; cases rematch? patVersionKV l <;> rfl

theorem kvVer_current (l : Str) (r : Release) : (kvVer l r).current_rollout = r.current_rollout := by
  unfold kvVer; cases rematch? patVersionKV l <;> rfl

theorem kvBuild_build (l : Str) (r : Release) :
    (kvBuild l r).build =
      match rematch? patBuildKV l with
      | some b =>
        if truthy r.build then r.build
        else some ((clean_slack_text b).dropWhile (cEq '#'))
      | none => r.build := by
  unfold kvBuild
  cases rematch? patBuildKV l with
  | none => rfl
  | some b => cases h : truthy r.build <;> simp [h]

theorem kvBuild_version (l : Str) (r : Release) : (kvBuild l r).version = r.version := by
  unfold kvBuild
  cases rematch? patBuildKV l with
  | none => rfl
  | some b => cases truthy r.build <;> simp

theorem kvBuild_platform (l : Str) (r : Release) : (kvBuild l r).platform = r.platform := by
  unfold kvBuild
  cases rematch? patBuildKV l with
  | none => rfl
  | some b => cases truthy r.build <;> simp

theorem kvBuild_status (l : Str) (r : Release) : (kvBuild l r).status = r.status := by
  unfold kvBuild
  cases rematch? patBuildKV l with
  | none => rfl
  | some b => cases truthy r.build <;> simp

theorem kvBuild_current (l : Str) (r : Release) : (kvBuild l r).current_rollout = r.current_rollout := by
  unfold kvBuild
  cases rematch? patBuildKV l with
  | none => rfl
  | some b => cases truthy r.build <;> simp

theorem kvPlat_platform (l : Str) (r : Release) :
    (kvPlat l r).platform =
      match rematch? patPlatformKV l with
      | some p => if truthy r.platform then r.platform else some (clean_slack_text p)
      | none => r.platform := by
  unfold kvPlat
  cases rematch? patPlatformKV l with
  | none => rfl
  | some p => cases h : truthy r.platform <;> simp [h]

theorem kvPlat_version (l : Str) (r : Release) : (kvPlat l r).version = r.version := by
  unfold kvPlat
  cases rematch? patPlatformKV l with
  | none => rfl
  | some p => cases truthy r.platform <;> simp

theorem kvPlat_build (l : Str) (r : Release) : (kvPlat l r).build = r.build := by
  unfold kvPlat
  cases rematch? patPlatformKV l with
  | none => rfl
  | some p => cases truthy r.platform <;> simp

theorem kvPlat_status (l : Str) (r : Release) : (kvPlat l r).status = r.status := by
  unfold kvPlat
  cases rematch? patPlatformKV l with
  | none => rfl
  | some p => cases truthy r.platform <;> simp

theorem kvPlat_current (l : Str) (r : Release) : (kvPlat l r).current_rollout = r.current_rollout := by
  unfold kvPlat
  cases rematch? patPlatformKV l with
  | none => rfl
  | some p => cases truthy r.platform <;> simp

theorem kvStat_status (l : Str) (r : Release) :
    (kvStat l r).status =
      match rematch? patStatusKV l with
      | some v => some (clean_slack_text v)
      | none => r.status := by
  unfold kvStat; cases rematch? patStatusKV l <;> rfl

theorem kvStat_version (l : Str) (r : Release) : (kvStat l r).version = r.version := by
  unfold kvStat; cases rematch? patStatusKV l <;> rfl

theorem kvStat_build (l : Str) (r : Release) : (kvStat l r).build = r.build := by
  unfold kvStat; cases rematch? patStatusKV l <;> rfl

theorem kvStat_platform (l : Str) (r : Release) : (kvStat l r).platform = r.platform := by
  unfold kvStat; cases rematch? patStatusKV l <;> rfl

theorem kvStat_current (l : Str) (r : Release) : (kvStat l r).current_rollout = r.current_rollout := by
  unfold kvStat; cases rematch? patStatusKV l <;> rfl

theorem kvRoll_current (l : Str) (r : Release) :
    (kvRoll l r).current_rollout =
      match rematch? patRolloutKV l with
      | some v => some (clean_slack_text v)
      | none => r.current_rollout := by
  unfold kvRoll; cases rematch? patRolloutKV l <;> rfl

theorem kvRoll_version (l : Str) (r : Release) : (kvRoll l r).version = r.version := by
  unfold kvRoll; cases rematch? patRolloutKV l <;> rfl

theorem kvRoll_build (l : Str) (r : Release) : (kvRoll l r).build = r.build := by
  unfold kvRoll; cases rematch? patRolloutKV l <;> rfl

theorem kvRoll_platform (l : Str) (r : Release) : (kvRoll l r).platform = r.platform := by
  unfold kvRoll; cases rematch? patRolloutKV l <;> rfl

theorem kvRoll_status (l : Str) (r : Release) : (kvRoll l r).status = r.status := by
  unfold kvRoll; cases rematch? patRolloutKV l <;> rfl

theorem kvChanges_version (l : Str) (rest : List Str) (r : Release) :
    (kvChanges l rest r).version = r.version := by
  unfold kvChanges; split <;> rfl

theorem kvChanges_build (l : Str) (rest : List Str) (r : Release) :
    (kvChanges l rest r).build = r.build := by
  unfold kvChanges; split <;> rfl

theorem kvChanges_platform (l : Str) (rest : List Str) (r : Release) :
    (kvChanges l rest r).platform = r.platform := by
  unfold kvChanges; split <;> rfl

theorem kvChanges_status (l : Str) (rest : List Str) (r : Release) :
    (kvChanges l rest r).status = r.status := by
  unfold kvChanges; split <;> rfl

theorem kvChanges_current (l : Str) (rest : List Str) (r : Release) :
    (kvChanges l rest r).current_rollout = r.current_rollout := by
  unfold kvChanges; split <;> rfl

theorem kvStep_version (l : Str) (rest : List Str) (r : Release) :
    (kvStep l rest r).version =
      match rematch? patVersionKV l with
      | some v => pyOr r.version (some v)
      | none => r.version := by
  unfold kvStep
  rw [kvChanges_version, kvRoll_version, kvStat_version, kvPlat_version,
      kvBuild_version, kvVer_version]

theorem kvStep_build (l : Str) (rest : List Str) (r : Release) :
    (kvStep l rest r).build =
      match rematch? patBuildKV l with
      | some b =>
        if truthy r.build then r.build
        else some ((clean_slack_text b).dropWhile (cEq '#'))
      | none => r.build := by
  unfold kvStep
  rw [kvChanges_build, kvRoll_build, kvStat_build, kvPlat_build, kvBuild_build,
      kvVer_build]

theorem kvStep_platform (l : Str) (rest : List Str) (r : Release) :
    (kvStep l rest r).platform =
      match rematch? patPlatformKV l with
      | some p => if truthy r.platform then r.platform else some (clean_slack_text p)
      | none => r.platform := by
  unfold kvStep
  rw [kvChanges_platform, kvRoll_platform, kvStat_platform, kvPlat_platform]
  rw [kvBuild_platform, kvVer_platform]

theorem kvStep_status (l : Str) (rest : List Str) (r : Release) :
    (kvStep l rest r).status =
      match rematch? patStatusKV l with
      | some v => some (clean_slack_text v)
      | none => r.status := by
  unfold kvStep
  rw [kvChanges_status, kvRoll_status, kvStat_status]
  rw [kvPlat_status, kvBuild_status, kvVer_status]

theorem kvStep_current (l : Str) (rest : List Str) (r : Release) :
    (kvStep l rest r).current_rollout =
      match rematch? patRolloutKV l with
      | some v => some (clean_slack_text v)
      | none => r.current_rollout := by
  unfold kvStep
  rw [kvChanges_current, kvRoll_current, kvStat_current]
  rw [kvPlat_current, kvBuild_current, kvVer_current]

theorem kvLoop_version (lines : List Str) (res : Release) :
    (kvLoop res lines).version =
      kvFirstWins res.version (lines.filterMap (rematch? patVersionKV)) := by
  induction lines generalizing res with
  | nil => rfl
  | cons l rest ih =>
    simp only [kvLoop, List.filterMap_cons]
    rw [ih, kvStep_version]
    cases rematch? patVersionKV l with
    | none => rfl
    | some v => simp only [kvFirstWins, pyOr]

theorem kvLoop_build (lines : List Str) (res : Release) :
    (kvLoop res lines).build =
      kvFirstWins res.build
        ((lines.filterMap (rematch? patBuildKV)).map
          (fun b => (clean_slack_text b).dropWhile (cEq '#'))) := by
  induction lines generalizing res with
  | nil => rfl
  | cons l rest ih =>
    simp only [kvLoop, List.filterMap_cons]
    rw [ih, kvStep_build]
    cases rematch? patBuildKV l with
    | none => rfl
    | some b => simp only [List.map_cons, kvFirstWins]

theorem kvLoop_platform (lines : List Str) (res : Release) :
    (kvLoop res lines).platform =
      kvFirstWins res.platform
        ((lines.filterMap (rematch? patPlatformKV)).map clean_slack_text) := by
  induction lines generalizing res with
  | nil => rfl
  | cons l rest ih =>
    simp only [kvLoop, List.filterMap_cons]
    rw [ih, kvStep_platform]
    cases rematch? patPlatformKV l with
    | none => rfl
    | some p => simp only [List.map_cons, kvFirstWins]

theorem kvLoop_status (lines : List Str) (res : Release) :
    (kvLoop res lines).status =
      kvLastWins res.status
        ((lines.filterMap (rematch? patStatusKV)).map clean_slack_text) := by
  induction lines generalizing res with
  | nil => rfl
  | cons l rest ih =>
    simp only [kvLoop, List.filterMap_cons]
    rw [ih, kvStep_status]
    cases rematch? patStatusKV l with
    | none => rfl
    | some v => simp only [List.map_cons, kvLastWins]

theorem kvLoop_current (lines : List Str) (res : Release) :
    (kvLoop res lines).current_rollout =
      kvLastWins res.current_rollout
        ((lines.filterMap (rematch? patRolloutKV)).map clean_slack_text) := by
  induction lines generalizing res with
  | nil => rfl
  | cons l rest ih =>
    simp only [kvLoop, List.filterMap_cons]
    rw [ih, kvStep_current]
    cases rematch? patRolloutKV l with
    | none => rfl
    | some v => simp only [List.map_cons, kvLastWins]

/-! The field-preservation relation and the merge steps. -/

theorem Pres.refl (a : Release) : Pres a a :=
  ⟨rfl, rfl, rfl, ⟨[], (List.append_nil _).symm⟩, ⟨[], (List.append_nil _).symm⟩,
   fun _ => rfl, fun _ => rfl⟩

theorem Pres.trans {a b c : Release} (h1 : Pres a b) (h2 : Pres b c) : Pres a c := by
  obtain ⟨e1, e2, e3, ⟨t1, ht1⟩, ⟨u1, hu1⟩, hv1, hp1⟩ := h1
  obtain ⟨f1, f2, f3, ⟨t2, ht2⟩, ⟨u2, hu2⟩, hv2, hp2⟩ := h2
  refine ⟨f1.trans e1, f2.trans e2, f3.trans e3,
    ⟨t1 ++ t2, by rw [ht2, ht1, List.append_assoc]⟩,
    ⟨u1 ++ u2, by rw [hu2, hu1, List.append_assoc]⟩, ?_, ?_⟩
  · intro hv
    have hbv := hv1 hv
    exact (hv2 (by rw [hbv]; exact hv)).trans hbv
  · intro hp
    have hbp := hp1 hp
    exact (hp2 (by rw [hbp]; exact hp)).trans hbp

theorem pyOr_of_truthy {a : Option Str} (b : Option Str) (h : truthy a = true) :
    pyOr a b = a := by simp [pyOr, h]

theorem selfApp (x : List Str) : ∃ t, x = x ++ t := ⟨[], (List.append_nil x).symm⟩

theorem Pres.mk' {a b : Release} (h1 : b.app = a.app) (h2 : b.published = a.published)
    (h3 : b.initial_rollout = a.initial_rollout)
    (h4 : ∃ t, b.key_changes = a.key_changes ++ t)
    (h5 : ∃ t, b.timeline = a.timeline ++ t)
    (h6 : truthy a.version = true → b.version = a.version)
    (h7 : truthy a.platform = true → b.platform = a.platform) : Pres a b :=
  ⟨h1, h2, h3, h4, h5, h6, h7⟩

theorem mrgPVR_pres (txt : Str) (b : Release) : Pres b (mrgPVR txt b) := by
  unfold mrgPVR
  cases research? patPlatVerRolled txt with
  | none => exact Pres.refl b
  | some g =>
    exact Pres.mk' rfl rfl rfl (selfApp _) (selfApp _)
      (fun hv => pyOr_of_truthy _ hv) (fun hp => pyOr_of_truthy _ hp)

theorem mrgPVL_pres (txt : Str) (b : Release) : Pres b (mrgPVL txt b) := by
  unfold mrgPVL
  cases research? patPlatVerLive txt with
  | none => exact Pres.refl b
  | some g =>
    exact Pres.mk' rfl rfl rfl (selfApp _) ⟨_, rfl⟩
      (fun hv => pyOr_of_truthy _ hv) (fun hp => pyOr_of_truthy _ hp)

theorem mrgVR_pres (txt : Str) (b : Release) : Pres b (mrgVR txt b) := by
  unfold mrgVR
  cases research? patVerRolled txt with
  | none => exact Pres.refl b
  | some g =>
    cases hv : truthy b.version with
    | true => simp only [hv, Bool.not_true, Bool.false_eq_true, if_neg]; exact Pres.refl b
    | false =>
      simp only [hv, Bool.not_false, if_pos]
      exact Pres.mk' rfl rfl rfl (selfApp _) (selfApp _)
        (fun h => absurd h (by rw [hv]; exact Bool.false_ne_true)) (fun _ => rfl)

theorem mrgBang_pres (txt : Str) (b : Release) : Pres b (mrgBang txt b) := by
  unfold mrgBang
  cases research? patRolledBang txt with
  | none => exact Pres.refl b
  | some pct =>
    exact Pres.mk' rfl rfl rfl (selfApp _) ⟨_, rfl⟩ (fun _ => rfl) (fun _ => rfl)

theorem mrgEmoji_pres (txt_raw : Str) (b : Release) : Pres b (mrgEmoji txt_raw b) := by
  unfold mrgEmoji
  cases research? patReleaseEmoji txt_raw with
  | none => exact Pres.refl b
  | some pct =>
    exact Pres.mk' rfl rfl rfl (selfApp _) ⟨_, rfl⟩ (fun _ => rfl) (fun _ => rfl)

theorem bcVer_pres (l : Str) (rest : List Str) (b : Release) : Pres b (bcVer l rest b) := by
  unfold bcVer
  split
  · cases rest with
    | nil => exact Pres.refl b
    | cons nxt r2 =>
      cases hv : truthy b.version with
      | true => simp only [hv, Bool.not_true, Bool.false_eq_true, if_neg]; exact Pres.refl b
      | false =>
        simp only [hv, Bool.not_false, if_pos]
        exact Pres.mk' rfl rfl rfl (selfApp _) (selfApp _)
          (fun h => absurd h (by rw [hv]; exact Bool.false_ne_true)) (fun _ => rfl)
  · exact Pres.refl b

theorem bcNum_pres (l : Str) (rest : List Str) (b : Release) : Pres b (bcNum l rest b) := by
  unfold bcNum
  split
  · cases rest with
    | nil => exact Pres.refl b
    | cons nxt r2 =>
      exact Pres.mk' rfl rfl rfl (selfApp _) (selfApp _) (fun _ => rfl) (fun _ => rfl)
  · exact Pres.refl b

theorem bcChanges_pres (l : Str) (rest : List Str) (b : Release) : Pres b (bcChanges l rest b) := by
  unfold bcChanges
  split
  · exact Pres.mk' rfl rfl rfl ⟨_, rfl⟩ (selfApp _) (fun _ => rfl) (fun _ => rfl)
  · exact Pres.refl b

theorem buildCardLoop_pres (ls : List Str) (b : Release) : Pres b (buildCardLoop b ls) := by
  induction ls generalizing b with
  | nil => exact Pres.refl b
  | cons l rest ih =>
    exact Pres.trans
      (Pres.trans (bcVer_pres l rest b)
        (Pres.trans (bcNum_pres l rest _) (bcChanges_pres l rest _))) (ih _)

theorem mrgBuildCard_pres (txt_raw : Str) (b : Release) : Pres b (mrgBuildCard txt_raw b) := by
  unfold mrgBuildCard
  split
  · exact buildCardLoop_pres _ b
  · exact Pres.refl b

theorem mrgChecked_pres (txt : Str) (b : Release) : Pres b (mrgChecked txt b) := by
  unfold mrgChecked
  split
  · exact Pres.mk' rfl rfl rfl (selfApp _) ⟨_, rfl⟩ (fun _ => rfl) (fun _ => rfl)
  · exact Pres.refl b

theorem mrgGreen_pres (txt : Str) (b : Release) : Pres b (mrgGreen txt b) := by
  unfold mrgGreen
  split
  · exact Pres.mk' rfl rfl rfl (selfApp _) ⟨_, rfl⟩ (fun _ => rfl) (fun _ => rfl)
  · exact Pres.refl b

theorem mrgSubmit_pres (txt : Str) (b : Release) : Pres b (mrgSubmit txt b) := by
  unfold mrgSubmit
  split
  · exact Pres.mk' rfl rfl rfl (selfApp _) ⟨_, rfl⟩ (fun _ => rfl) (fun _ => rfl)
  · exact Pres.refl b

theorem mrgStatusLine_pres (txt_raw : Str) (b : Release) : Pres b (mrgStatusLine txt_raw b) := by
  unfold mrgStatusLine
  cases research? patStatusLine txt_raw with
  | none => exact Pres.refl b
  | some kv =>
    dsimp only
    split
    · exact Pres.mk' rfl rfl rfl (selfApp _) (selfApp _) (fun _ => rfl) (fun _ => rfl)
    · exact Pres.mk' rfl rfl rfl (selfApp _) (selfApp _) (fun _ => rfl) (fun _ => rfl)

theorem mrgBracket_pres (txt : Str) (b : Release) : Pres b (mrgBracket txt b) := by
  unfold mrgBracket
  cases hp : truthy b.platform with
  | true => simp only [hp, Bool.not_true, Bool.false_eq_true, if_neg]; exact Pres.refl b
  | false =>
    simp only [hp, Bool.not_false, if_pos]
    cases research? patBracketPlatform txt with
    | none => exact Pres.refl b
    | some p =>
      exact Pres.mk' rfl rfl rfl (selfApp _) (selfApp _) (fun _ => rfl)
        (fun h => absurd h (by rw [hp]; exact Bool.false_ne_true))

theorem mergeBody_pres (txt_raw txt : Str) (b : Release) : Pres b (mergeBody txt_raw txt b) := by
  unfold mergeBody
  exact Pres.trans (mrgPVR_pres txt b)
    (Pres.trans (mrgPVL_pres txt _)
    (Pres.trans (mrgVR_pres txt _)
    (Pres.trans (mrgBang_pres txt _)
    (Pres.trans (mrgEmoji_pres txt_raw _)
    (Pres.trans (mrgBuildCard_pres txt_raw _)
    (Pres.trans (mrgChecked_pres txt _)
    (Pres.trans (mrgGreen_pres txt _)
    (Pres.trans (mrgSubmit_pres txt _)
    (Pres.trans (mrgStatusLine_pres txt_raw _) (mrgBracket_pres txt _))))))))))

theorem mergeFold_pres (rs : List Str) (st : MergeSt) :
    Pres st.base (rs.foldl mergeStep st).base := by
  induction rs generalizing st with
  | nil => exact Pres.refl st.base
  | cons r rs ih =>
    exact Pres.trans (mergeBody_pres r (clean_slack_text r) st.base) (ih _)

theorem mergeFold_joined (rs : List Str) (st : MergeSt) :
    (rs.foldl mergeStep st).joined = st.joined ++ rs.map clean_slack_text := by
  induction rs generalizing st with
  | nil => simp
  | cons r rs ih =>
    simp only [List.foldl_cons, List.map_cons]
    rw [ih]
    simp [mergeStep]

theorem mergeFold_ea (rs : List Str) (st : MergeSt) :
    (rs.foldl mergeStep st).explicit_app =
      match latestExplicitApp rs with
      | some x => some x
      | none => st.explicit_app := by
  induction rs generalizing st with
  | nil => rfl
  | cons r rs ih =>
    simp only [List.foldl_cons, latestExplicitApp]
    rw [ih]
    cases latestExplicitApp rs with
    | some x => rfl
    | none =>
      simp only [mergeStep]

/-! Normalized app candidates are non-empty and never generic. -/

theorem lookup_val_mem {k v : Str} {m : List (Str × Str)}
    (h : List.lookup k m = some v) : v ∈ m.map (fun kv => kv.2) := by
  induction m with
  | nil => cases h
  | cons kv rest ih =>
    obtain ⟨k1, v1⟩ := kv
    simp only [List.lookup] at h
    split at h
    · cases h
      exact List.mem_cons_self _ _
    · exact List.mem_cons_of_mem _ (ih h)

theorem abbr_lookup_ok {k v : Str} (h : List.lookup k ABBR_MAP = some v) :
    v ≠ [] ∧ genericTitlesMatch v = false := by
  have hv := lookup_val_mem h
  have hmap : ABBR_MAP.map (fun kv => kv.2) =
      [("Dominoes".toList), ("Number Match".toList), ("Spades".toList),
       ("Block Tok".toList)] := rfl
  rw [hmap] at hv
  cases hv with
  | head => exact ⟨by decide, by decide⟩
  | tail _ hv =>
    cases hv with
    | head => exact ⟨by decide, by decide⟩
    | tail _ hv =>
      cases hv with
      | head => exact ⟨by decide, by decide⟩
      | tail _ hv =>
        cases hv with
        | head => exact ⟨by decide, by decide⟩
        | tail _ hv => cases hv

theorem normalizeChecks_some {m n : Str} (h : normalizeChecks m = some n) :
    n ≠ [] ∧ genericTitlesMatch n = false := by
  unfold normalizeChecks at h
  split at h
  · cases h
  · split at h
    · cases h
    · split at h
      · cases h
      · split at h
        · cases h
        · next hgen =>
          next hlen _ _ =>
          cases h
          refine ⟨?_, ?_⟩
          · intro hnil
            apply hlen
            rw [hnil]
            decide
          · simpa using hgen

theorem normalize_some {x n : Str} (h : normalize_app_candidate x = some n) :
    n ≠ [] ∧ genericTitlesMatch n = false := by
  unfold normalize_app_candidate at h
  by_cases hx : x.isEmpty
  · rw [if_pos hx] at h
    cases h
  · rw [if_neg hx] at h
    dsimp only at h
    cases hL : ABBR_MAP.lookup (upperStr (normalizeEdges x)) with
    | some full =>
      rw [hL] at h
      cases h
      exact abbr_lookup_ok hL
    | none =>
      rw [hL] at h
      exact normalizeChecks_some h

theorem extract_afterLine_some {t n : Str}
    (h : (let afterThis : Option Str :=
            match research? patThisIs t with
            | some nm2 =>
              match normalize_app_candidate nm2 with
              | some n => some n
              | none => none
            | none => none
          match afterThis with
          | some n => some n
          | none =>
            let line := stripStr t
            if line.contains '\n' then none
            else match normalize_app_candidate line with
              | some n => some n
              | none => none) = some n) :
    n ≠ [] ∧ genericTitlesMatch n = false := by
  dsimp only at h
  cases hT : research? patThisIs t with
  | some nm2 =>
    simp only [hT] at h
    cases hN2 : normalize_app_candidate nm2 with
    | some n2 =>
      simp only [hN2, Option.some.injEq] at h
      cases h
      exact normalize_some hN2
    | none =>
      simp only [hN2] at h
      split at h
      · cases h
      · cases hN3 : normalize_app_candidate (stripStr t) with
        | some n3 =>
          simp only [hN3, Option.some.injEq] at h
          cases h
          exact normalize_some hN3
        | none =>
          simp only [hN3] at h
          cases h
  | none =>
    simp only [hT] at h
    split at h
    · cases h
    · cases hN3 : normalize_app_candidate (stripStr t) with
      | some n3 =>
        simp only [hN3, Option.some.injEq] at h
        cases h
        exact normalize_some hN3
      | none =>
        simp only [hN3] at h
        cases h

theorem extract_some {t n : Str} (h : extract_explicit_app_from_text t = some n) :
    n ≠ [] ∧ genericTitlesMatch n = false := by
  unfold extract_explicit_app_from_text at h
  split at h
  · cases h
  · cases hA : research? patAppExplicit t with
    | some nm =>
      simp only [hA] at h
      cases hN : normalize_app_candidate nm with
      | some n1 =>
        simp only [hN, Option.some.injEq] at h
        cases h
        exact normalize_some hN
      | none =>
        simp only [hN] at h
        exact extract_afterLine_some h
    | none =>
      simp only [hA] at h
      exact extract_afterLine_some h

theorem latestExplicitApp_some {rs : List Str} {ea : Str}
    (h : latestExplicitApp rs = some ea) :
    ea ≠ [] ∧ genericTitlesMatch ea = false := by
  induction rs with
  | nil => cases h
  | cons r rs ih =>
    simp only [latestExplicitApp] at h
    split at h
    · next x heq => cases h; exact ih heq
    · exact extract_some h

/-! The app resolution and version fallback of the merge. -/

theorem appResolve_eq_update (ea : Option Str) (j : List Str) (b : Release) :
    appResolve ea j b = { b with app := (appResolve ea j b).app } := by
  unfold appResolve
  cases ea <;> dsimp only <;> (repeat' split) <;> rfl

theorem appResolve_version (ea : Option Str) (j : List Str) (b : Release) :
    (appResolve ea j b).version = b.version := by
  rw [appResolve_eq_update ea j b]

theorem mergeVersionFill_eq_update (j : List Str) (b : Release) :
    mergeVersionFill j b = { b with version := (mergeVersionFill j b).version } := by
  unfold mergeVersionFill
  (repeat' split) <;> rfl

theorem mergeVersionFill_of_truthy (j : List Str) (b : Release)
    (h : truthy b.version = true) : mergeVersionFill j b = b := by
  unfold mergeVersionFill
  simp [h]

theorem appResolve_app (ea : Option Str) (j : List Str) (b : Release)
    (hE : ∀ e, ea = some e → e ≠ [] ∧ genericTitlesMatch e = false) :
    (appResolve ea j b).app =
      if (!truthy b.app || is_generic b.app) = true then appResolveSpec ea j b.app
      else b.app := by
  unfold appResolve appResolveSpec
  cases hcond : (!truthy b.app || is_generic b.app) with
  | false =>
    cases ea with
    | none => simp [hcond]
    | some e => simp [hcond]
  | true =>
    cases ea with
    | none =>
      simp [hcond]
      split
      · cases firstExplicit j <;> rfl
      · rfl
    | some e =>
      obtain ⟨hne, hng⟩ := hE e rfl
      have h1 : truthy (some e) = true := truthy_some_iff.mpr hne
      have h2 : is_generic (some e) = false := by
        simp only [is_generic]
        rw [hng]
        simp
      simp [hcond, h1, h2]

theorem merge_app (base : Release) (replies : List Str) :
    (merge_replies_into_release base replies).app =
      if (!truthy base.app || is_generic base.app) = true then
        appResolveSpec (latestExplicitApp replies) (replies.map clean_slack_text) base.app
      else base.app := by
  unfold merge_replies_into_release
  have hj : (replies.foldl mergeStep ⟨base, none, []⟩).joined =
      replies.map clean_slack_text := by
    rw [mergeFold_joined]
    simp
  have hea : (replies.foldl mergeStep ⟨base, none, []⟩).explicit_app =
      latestExplicitApp replies := by
    rw [mergeFold_ea]
    cases latestExplicitApp replies <;> rfl
  have hba : (replies.foldl mergeStep ⟨base, none, []⟩).base.app = base.app :=
    (mergeFold_pres replies ⟨base, none, []⟩).1
  rw [mergeVersionFill_eq_update]
  dsimp only
  rw [hj, hea]
  rw [appResolve_app _ _ _ (fun e he => latestExplicitApp_some he)]
  rw [hba]

theorem appResolve_fields (ea : Option Str) (j : List Str) (b : Release) :
    (appResolve ea j b).published = b.published ∧
    (appResolve ea j b).initial_rollout = b.initial_rollout ∧
    (appResolve ea j b).key_changes = b.key_changes ∧
    (appResolve ea j b).timeline = b.timeline ∧
    (appResolve ea j b).platform = b.platform ∧
    (appResolve ea j b).status = b.status ∧
    (appResolve ea j b).build = b.build ∧
    (appResolve ea j b).current_rollout = b.current_rollout := by
  rw [appResolve_eq_update ea j b]
  exact ⟨rfl, rfl, rfl, rfl, rfl, rfl, rfl, rfl⟩

theorem mergeVersionFill_fields (j : List Str) (b : Release) :
    (mergeVersionFill j b).published = b.published ∧
    (mergeVersionFill j b).initial_rollout = b.initial_rollout ∧
    (mergeVersionFill j b).key_changes = b.key_changes ∧
    (mergeVersionFill j b).timeline = b.timeline ∧
    (mergeVersionFill j b).platform = b.platform ∧
    (mergeVersionFill j b).status = b.status ∧
    (mergeVersionFill j b).build = b.build ∧
    (mergeVersionFill j b).current_rollout = b.current_rollout ∧
    (mergeVersionFill j b).app = b.app := by
  rw [mergeVersionFill_eq_update j b]
  exact ⟨rfl, rfl, rfl, rfl, rfl, rfl, rfl, rfl, rfl⟩

/-- Field invariants of the whole reply merge: published and initial
rollout untouched, key changes and timeline accumulate-only, a non-empty
version and platform never changed, a non-empty non-generic app never
changed. -/
theorem merge_pres (base : Release) (replies : List Str) :
    (merge_replies_into_release base replies).published = base.published ∧
    (merge_replies_into_release base replies).initial_rollout = base.initial_rollout ∧
    (∃ t, (merge_replies_into_release base replies).key_changes = base.key_changes ++ t) ∧
    (∃ t, (merge_replies_into_release base replies).timeline = base.timeline ++ t) ∧
    (truthy base.version = true →
      (merge_replies_into_release base replies).version = base.version) ∧
    (truthy base.platform = true →
      (merge_replies_into_release base replies).platform = base.platform) ∧
    (truthy base.app = true → is_generic base.app = false →
      (merge_replies_into_release base replies).app = base.app) := by
  have hfold := mergeFold_pres replies ⟨base, none, []⟩
  obtain ⟨hA, hP, hI, ⟨tk, hK⟩, ⟨tt, hT⟩, hV, hPl⟩ := hfold
  unfold merge_replies_into_release
  obtain ⟨a1, a2, a3, a4, a5, a6, a7, a8⟩ :=
    appResolve_fields (List.foldl mergeStep ⟨base, none, []⟩ replies).explicit_app
      (List.foldl mergeStep ⟨base, none, []⟩ replies).joined
      (List.foldl mergeStep ⟨base, none, []⟩ replies).base
  obtain ⟨m1, m2, m3, m4, m5, m6, m7, m8, m9⟩ :=
    mergeVersionFill_fields (List.foldl mergeStep ⟨base, none, []⟩ replies).joined
      (appResolve (List.foldl mergeStep ⟨base, none, []⟩ replies).explicit_app
        (List.foldl mergeStep ⟨base, none, []⟩ replies).joined
        (List.foldl mergeStep ⟨base, none, []⟩ replies).base)
  refine ⟨?_, ?_, ?_, ?_, ?_, ?_, ?_⟩
  · rw [m1, a1, hP]
  · rw [m2, a2, hI]
  · exact ⟨tk, by rw [m3, a3, hK]⟩
  · exact ⟨tt, by rw [m4, a4, hT]⟩
  · intro hv
    have hv2 : truthy (appResolve (List.foldl mergeStep ⟨base, none, []⟩ replies).explicit_app
        (List.foldl mergeStep ⟨base, none, []⟩ replies).joined
        (List.foldl mergeStep ⟨base, none, []⟩ replies).base).version = true := by
      rw [appResolve_version, hV hv]
      exact hv
    rw [mergeVersionFill_of_truthy _ _ hv2, appResolve_version, hV hv]
  · intro hp
    rw [m5, a5, hPl hp]
  · intro hat hgen
    have := merge_app base replies
    unfold merge_replies_into_release at this
    rw [this]
    have hcond : (!truthy base.app || is_generic base.app) = false := by
      rw [hat, hgen]
      rfl
    rw [hcond]
    simp

/-! Dictionary and sorting lemmas for the Deduplicator. -/

theorem lookup_dictUpsert (k key : Str) (r : Release × ℚ)
    (m : List (Str × (Release × ℚ))) :
    List.lookup k (dictUpsert key r m) =
      if k = key then
        match List.lookup key m with
        | none => some r
        | some v => if r.2 > v.2 then some r else some v
      else List.lookup k m := by
  induction m with
  | nil =>
    by_cases hk : k = key
    · subst hk
      simp [dictUpsert, List.lookup]
    · simp [dictUpsert, List.lookup, hk, beq_false_of_ne hk]
  | cons kv rest ih =>
    obtain ⟨k1, v1⟩ := kv
    simp only [dictUpsert]
    by_cases h1 : k1 = key
    · subst h1
      rw [if_pos rfl]
      by_cases hgt : r.2 > v1.2
      · rw [if_pos hgt]
        by_cases hk : k = k1
        · subst hk
          simp [List.lookup, hgt]
        · simp [List.lookup, beq_false_of_ne hk, hk]
      · rw [if_neg hgt]
        by_cases hk : k = k1
        · subst hk
          simp [List.lookup, hgt]
        · simp [List.lookup, beq_false_of_ne hk, hk]
    · rw [if_neg h1]
      by_cases hk : k = k1
      · subst hk
        have hne : k ≠ key := fun hc => h1 hc
        simp [List.lookup, hne]
      · have hsymm : key ≠ k1 := fun hc => h1 hc.symm
        by_cases hkey : k = key
        · subst hkey
          simp only [List.lookup, beq_false_of_ne hk]
          rw [ih]
          simp [List.lookup, beq_false_of_ne hsymm]
        · simp only [List.lookup, beq_false_of_ne hk]
          rw [ih]
          simp [hkey]

theorem lookup_dedup_fold (k : Str) (l : List (Release × ℚ))
    (m : List (Str × (Release × ℚ))) :
    List.lookup k (List.foldl dedupStep m l) =
      List.foldl (rmStep k) (List.lookup k m) l := by
  induction l generalizing m with
  | nil => rfl
  | cons y l ih =>
    simp only [List.foldl_cons, dedupStep]
    rw [ih, lookup_dictUpsert]
    have : (if k = relKey y then
        match List.lookup (relKey y) m with
        | none => some y
        | some v => if y.2 > v.2 then some y else some v
      else List.lookup k m) = rmStep k (List.lookup k m) y := by
      unfold rmStep
      by_cases hk : k = relKey y
      · subst hk
        simp
      · rw [if_neg hk, if_neg (fun hc => hk hc.symm)]
    rw [this]

theorem rmFold_mem (k : Str) (l : List (Release × ℚ)) (acc : Option (Release × ℚ))
    (v : Release × ℚ) (h : List.foldl (rmStep k) acc l = some v) :
    acc = some v ∨ v ∈ l := by
  induction l generalizing acc with
  | nil => exact Or.inl h
  | cons y l ih =>
    simp only [List.foldl_cons] at h
    rcases ih _ h with hacc | hmem
    · unfold rmStep at hacc
      split at hacc
      · split at hacc
        · cases hacc
          exact Or.inr (List.mem_cons_self _ _)
        · split at hacc
          · cases hacc
            exact Or.inr (List.mem_cons_self _ _)
          · exact Or.inl hacc
      · exact Or.inl hacc
    · exact Or.inr (List.mem_cons_of_mem _ hmem)

theorem rmFold_ge (k : Str) (l : List (Release × ℚ)) (acc : Option (Release × ℚ))
    (v : Release × ℚ) (h : List.foldl (rmStep k) acc l = some v) :
    (∀ a, acc = some a → a.2 ≤ v.2) ∧ (∀ y ∈ l, relKey y = k → y.2 ≤ v.2) := by
  induction l generalizing acc with
  | nil =>
    refine ⟨?_, ?_⟩
    · intro a ha
      rw [ha] at h
      cases h
      exact le_refl _
    · intro y hy
      cases hy
  | cons y l ih =>
    simp only [List.foldl_cons] at h
    obtain ⟨ihacc, ihl⟩ := ih _ h
    refine ⟨?_, ?_⟩
    · intro a ha
      subst ha
      by_cases hky : relKey y = k
      · by_cases hgt : y.2 > a.2
        · have hy : y.2 ≤ v.2 := ihacc y (by simp [rmStep, hky, hgt])
          exact (le_of_lt hgt).trans hy
        · exact ihacc a (by simp [rmStep, hky, hgt])
      · exact ihacc a (by simp [rmStep, hky])
    · intro z hz hkz
      rcases List.mem_cons.mp hz with rfl | hz2
      · cases hacc : acc with
        | none => exact ihacc z (by simp [rmStep, hkz, hacc])
        | some a =>
          by_cases hgt : z.2 > a.2
          · exact ihacc z (by simp [rmStep, hkz, hacc, hgt])
          · have ha : a.2 ≤ v.2 := ihacc a (by simp [rmStep, hkz, hacc, hgt])
            exact (le_of_not_lt hgt).trans ha
      · exact ihl z hz2 hkz

theorem rmStep_isSome (k : Str) (acc : Option (Release × ℚ)) (y : Release × ℚ)
    (h : acc.isSome = true) : (rmStep k acc y).isSome = true := by
  unfold rmStep
  cases acc with
  | none => cases h
  | some a =>
    split
    · split <;> first | rfl | (split <;> rfl)
    · rfl

theorem rmFold_isSome (k : Str) (l : List (Release × ℚ)) (acc : Option (Release × ℚ))
    (h : acc.isSome = true ∨ ∃ y ∈ l, relKey y = k) :
    (List.foldl (rmStep k) acc l).isSome = true := by
  induction l generalizing acc with
  | nil =>
    rcases h with h | ⟨y, hy, _⟩
    · exact h
    · cases hy
  | cons y l ih =>
    simp only [List.foldl_cons]
    rcases h with h | ⟨z, hz, hkz⟩
    · exact ih _ (Or.inl (rmStep_isSome k acc y h))
    · rcases List.mem_cons.mp hz with rfl | hz2
      · refine ih _ (Or.inl ?_)
        unfold rmStep
        rw [if_pos hkz]
        cases acc with
        | none => rfl
        | some a => split <;> first | rfl | (split <;> rfl)
      · exact ih _ (Or.inr ⟨z, hz2, hkz⟩)

theorem mem_dictUpsert {kv : Str × (Release × ℚ)} {key : Str} {r : Release × ℚ}
    {m : List (Str × (Release × ℚ))} (h : kv ∈ dictUpsert key r m) :
    kv ∈ m ∨ kv = (key, r) := by
  induction m with
  | nil =>
    simp only [dictUpsert, List.mem_singleton] at h
    exact Or.inr h
  | cons e rest ih =>
    simp only [dictUpsert] at h
    split at h
    · next he =>
      rcases List.mem_cons.mp h with h1 | h2
      · split at h1
        · cases h1
          exact Or.inr (by rw [he])
        · cases h1
          exact Or.inl (List.mem_cons_self _ _)
      · exact Or.inl (List.mem_cons_of_mem _ h2)
    · rcases List.mem_cons.mp h with h1 | h2
      · exact Or.inl (by rw [h1]; exact List.mem_cons_self _ _)
      · rcases ih h2 with h3 | h3
        · exact Or.inl (List.mem_cons_of_mem _ h3)
        · exact Or.inr h3

theorem entry_key_fold {kv : Str × (Release × ℚ)} {l : List (Release × ℚ)}
    {m : List (Str × (Release × ℚ))}
    (hm : ∀ e ∈ m, e.1 = relKey e.2) (h : kv ∈ List.foldl dedupStep m l) :
    kv.1 = relKey kv.2 := by
  induction l generalizing m with
  | nil => exact hm kv h
  | cons y l ih =>
    simp only [List.foldl_cons, dedupStep] at h
    refine ih ?_ h
    intro e he
    rcases mem_dictUpsert he with h1 | h1
    · exact hm e h1
    · rw [h1]

theorem keys_dictUpsert (key : Str) (r : Release × ℚ)
    (m : List (Str × (Release × ℚ))) :
    (dictUpsert key r m).map (fun kv => kv.1) =
      if key ∈ m.map (fun kv => kv.1) then m.map (fun kv => kv.1)
      else m.map (fun kv => kv.1) ++ [key] := by
  induction m with
  | nil => simp [dictUpsert]
  | cons e rest ih =>
    obtain ⟨k1, v1⟩ := e
    simp only [dictUpsert, List.map_cons]
    by_cases h1 : k1 = key
    · subst h1
      rw [if_pos rfl]
      have hc : k1 ∈ k1 :: rest.map (fun kv => kv.1) := List.mem_cons_self _ _
      rw [if_pos hc]
      simp only [List.map_cons]
      split <;> rfl
    · rw [if_neg h1]
      simp only [List.map_cons]
      rw [ih]
      have hne : ¬key = k1 := fun hc => h1 hc.symm
      have hiff : (key ∈ k1 :: rest.map (fun kv => kv.1)) ↔
          key ∈ rest.map (fun kv => kv.1) := by
        rw [List.mem_cons]
        exact ⟨fun hc => hc.resolve_left hne, Or.inr⟩
      by_cases hmem : key ∈ rest.map (fun kv => kv.1)
      · rw [if_pos hmem, if_pos (hiff.mpr hmem)]
      · rw [if_neg hmem, if_neg (fun hc => hmem (hiff.mp hc))]
        rfl

theorem keys_nodup_fold (l : List (Release × ℚ)) (m : List (Str × (Release × ℚ)))
    (hm : (m.map (fun kv => kv.1)).Nodup) :
    ((List.foldl dedupStep m l).map (fun kv => kv.1)).Nodup := by
  induction l generalizing m with
  | nil => exact hm
  | cons y l ih =>
    simp only [List.foldl_cons, dedupStep]
    refine ih _ ?_
    rw [keys_dictUpsert]
    split
    · exact hm
    · next hnot =>
      rw [List.nodup_append]
      exact ⟨hm, List.nodup_singleton _, by
        intro a ha hb
        rw [List.mem_singleton] at hb
        subst hb
        exact hnot ha⟩

theorem mem_of_lookup {k : Str} {v : Release × ℚ} {m : List (Str × (Release × ℚ))}
    (h : List.lookup k m = some v) : (k, v) ∈ m := by
  induction m with
  | nil => cases h
  | cons e rest ih =>
    obtain ⟨k1, v1⟩ := e
    simp only [List.lookup] at h
    split at h
    · next hbeq =>
      cases h
      have : k = k1 := by simpa using hbeq
      subst this
      exact List.mem_cons_self _ _
    · exact List.mem_cons_of_mem _ (ih h)

theorem lookup_of_mem_nodup {kv : Str × (Release × ℚ)} {m : List (Str × (Release × ℚ))}
    (hnd : (m.map (fun e => e.1)).Nodup) (h : kv ∈ m) :
    List.lookup kv.1 m = some kv.2 := by
  induction m with
  | nil => cases h
  | cons e rest ih =>
    obtain ⟨k1, v1⟩ := e
    simp only [List.map_cons, List.nodup_cons] at hnd
    rcases List.mem_cons.mp h with h1 | h2
    · rw [h1]
      simp [List.lookup]
    · have hne : kv.1 ≠ k1 := by
        intro hc
        apply hnd.1
        rw [← hc]
        exact List.mem_map.mpr ⟨kv, h2, rfl⟩
      simp only [List.lookup, beq_false_of_ne hne]
      exact ih hnd.2 h2

/-! Stable descending sort lemmas. -/

theorem mem_insDesc {x y : Release × ℚ} {l : List (Release × ℚ)} :
    x ∈ insDesc y l ↔ x = y ∨ x ∈ l := by
  induction l with
  | nil => simp [insDesc]
  | cons z l ih =>
    unfold insDesc
    split
    · simp [List.mem_cons]
    · simp only [List.mem_cons, ih]
      tauto

theorem insDesc_sorted {y : Release × ℚ} {l : List (Release × ℚ)}
    (h : l.Pairwise (fun a b => b.2 ≤ a.2)) :
    (insDesc y l).Pairwise (fun a b => b.2 ≤ a.2) := by
  induction l with
  | nil => simp [insDesc]
  | cons z l ih =>
    rw [List.pairwise_cons] at h
    unfold insDesc
    split
    · next hgt =>
      rw [List.pairwise_cons]
      refine ⟨?_, List.pairwise_cons.mpr h⟩
      intro b hb
      rcases List.mem_cons.mp hb with rfl | hb2
      · exact le_of_lt hgt
      · exact (h.1 b hb2).trans (le_of_lt hgt)
    · next hle =>
      rw [List.pairwise_cons]
      refine ⟨?_, ih h.2⟩
      intro b hb
      rcases mem_insDesc.mp hb with rfl | hb2
      · exact le_of_not_lt hle
      · exact h.1 b hb2

theorem sortDesc_aux_sorted (l : List (Release × ℚ)) (acc : List (Release × ℚ))
    (hacc : acc.Pairwise (fun a b => b.2 ≤ a.2)) :
    (l.foldl (fun acc x => insDesc x acc) acc).Pairwise (fun a b => b.2 ≤ a.2) := by
  induction l generalizing acc with
  | nil => exact hacc
  | cons y l ih => exact ih _ (insDesc_sorted hacc)

theorem sortDesc_sorted (l : List (Release × ℚ)) :
    (sortDesc l).Pairwise (fun a b => b.2 ≤ a.2) :=
  sortDesc_aux_sorted l [] (List.Pairwise.nil)

theorem mem_sortDesc_aux {x : Release × ℚ} (l : List (Release × ℚ))
    (acc : List (Release × ℚ)) :
    x ∈ l.foldl (fun acc x => insDesc x acc) acc ↔ x ∈ acc ∨ x ∈ l := by
  induction l generalizing acc with
  | nil => simp
  | cons y l ih =>
    simp only [List.foldl_cons, ih, mem_insDesc, List.mem_cons]
    tauto

theorem mem_sortDesc {x : Release × ℚ} {l : List (Release × ℚ)} :
    x ∈ sortDesc l ↔ x ∈ l := by
  unfold sortDesc
  rw [mem_sortDesc_aux]
  simp

/-! Status truthiness and the per-message characterization. -/

theorem statusHeur_truthy (s : Str) (res : Release) :
    truthy (statusHeur s res).status = true := by
  unfold statusHeur
  cases h : truthy res.status with
  | true =>
    simp only [h, Bool.not_true, Bool.false_eq_true, if_neg]
    exact h
  | false =>
    simp only [h, Bool.not_false, if_pos]
    rw [truthy_some_iff]
    (repeat' split) <;> decide

theorem inferFill_status (s : Str) (res : Release) :
    (inferFill s res).status = res.status := by
  unfold inferFill
  dsimp only
  (repeat' split) <;> rfl

theorem versionFill_status (s : Str) (res : Release) :
    (versionFill s res).status = res.status := by
  unfold versionFill
  (repeat' split) <;> rfl

theorem parse_status_truthy (text : Str) :
    truthy (parse_release_from_text text).status = true := by
  unfold parse_release_from_text
  cases hA : research? patAnnounce (clean_slack_text text) with
  | some g =>
    simp only [hA]
    show truthy (some ("Ready for rollout".toList)) = true
    decide
  | none =>
    simp only [hA]
    rw [versionFill_status, inferFill_status]
    exact statusHeur_truthy _ _

theorem pubFill_eq_update (fmt : ℚ → Str) (ts : ℚ) (rel : Release) :
    pubFill fmt ts rel = { rel with published := (pubFill fmt ts rel).published } := by
  unfold pubFill
  split <;> rfl

theorem pctFill_eq_update (t : Str) (rel : Release) :
    pctFill t rel = { rel with rollout := (pctFill t rel).rollout } := by
  unfold pctFill
  (repeat' split) <;> rfl

theorem assembled_single_status (fmt : ℚ → Str) (msg : Msg)
    (h : msg.thread_ts = none) : truthy (assembled fmt msg).status = true := by
  unfold assembled
  have hroot : isThreadRoot msg = false := by
    unfold isThreadRoot
    rw [h]
    simp
  rw [hroot]
  simp only [Bool.false_and, Bool.false_eq_true, if_neg]
  rw [pctFill_eq_update, pubFill_eq_update]
  exact parse_status_truthy msg.text

/-- Characterization of the per-message step: accepted exactly when the
message is a thread root or standalone and the assembled record passes the
spec-worded acceptance predicate. -/
theorem processMsg_char (fmt : ℚ → Str) (msg : Msg) :
    processMsg fmt msg =
      if ((isThreadRoot msg || isSingle msg) && acceptSpec (assembled fmt msg)) = true then
        some (assembled fmt msg, msg.ts)
      else none := by
  unfold processMsg
  cases h1 : (isThreadRoot msg || isSingle msg) with
  | false => simp [h1]
  | true =>
    simp only [h1, Bool.not_true, Bool.false_eq_true, if_neg, Bool.true_and]
    cases ha : truthy (assembled fmt msg).app with
    | false => simp [acceptSpec, ha]
    | true =>
      cases hg : genericTitlesMatch ((assembled fmt msg).app.getD []) with
      | true => simp [acceptSpec, ha, hg]
      | false =>
        cases hs : (truthy (assembled fmt msg).version ||
            (truthy (assembled fmt msg).status ||
              !(assembled fmt msg).key_changes.isEmpty)) with
        | true => simp [acceptSpec, ha, hg, hs, Bool.or_assoc]
        | false => simp [acceptSpec, ha, hg, hs, Bool.or_assoc]

theorem processMsg_some {fmt : ℚ → Str} {msg : Msg} {r : Release × ℚ}
    (h : processMsg fmt msg = some r) :
    r = (assembled fmt msg, msg.ts) ∧ acceptSpec (assembled fmt msg) = true := by
  rw [processMsg_char] at h
  split at h
  · next hc =>
    cases h
    exact ⟨rfl, (Bool.and_eq_true _ _ ▸ hc).2⟩
  · cases h

/-! Identity of the normalizer on text without markup triggers. -/

theorem pbind_nil {p : Pat α} {f : α → Pat β} {st : PS} (h : p st = []) :
    pbind p f st = [] := by simp [pbind, h]

theorem palt_nil {p q : Pat α} {st : PS} (h1 : p st = []) (h2 : q st = []) :
    palt p q st = [] := by simp [palt, h1, h2]

theorem pch_nil {f : Char → Bool} {prev : Option Char} : pch f ⟨prev, []⟩ = [] := rfl

theorem pch_cons_nil {f : Char → Bool} {prev : Option Char} {c : Char} {r : Str}
    (h : f c = false) : pch f ⟨prev, c :: r⟩ = [] := by simp [pch, h]

theorem plit_cons_nil {c : Char} {cs : Str} {prev : Option Char} {t : Str}
    (h : ∀ d, t.head? = some d → (d == c) = false) : plit (c :: cs) ⟨prev, t⟩ = [] := by
  cases t with
  | nil => rfl
  | cons d r =>
    show pbind (pch (cEq c)) (fun _ => plit cs) ⟨prev, d :: r⟩ = []
    exact pbind_nil (pch_cons_nil (by simpa [cEq] using h d rfl))

theorem resubAux_id (p : Pat Str) (fuel : Nat) (prev : Option Char) (s : Str)
    (h : ∀ prev' t, t <:+ s → p ⟨prev', t⟩ = []) :
    resubAux p fuel prev s = s := by
  induction fuel generalizing prev s with
  | zero => rfl
  | succ fuel ih =>
    cases s with
    | nil => rfl
    | cons c r =>
      unfold resubAux
      rw [h prev (c :: r) (List.suffix_refl _)]
      simp only [List.head?_nil]
      rw [ih (some c) r (fun prev' t ht => h prev' t (ht.trans (List.suffix_cons c r)))]

theorem resub_id (p : Pat Str) (s : Str)
    (h : ∀ prev t, t <:+ s → p ⟨prev, t⟩ = []) : resub p s = s :=
  resubAux_id p (s.length + 1) none s h

/-- A condition on every character, inherited by suffixes. -/
theorem suffix_all {P : Char → Prop} {s t : Str} (hs : ∀ c ∈ s, P c)
    (ht : t <:+ s) : ∀ c ∈ t, P c :=
  fun c hc => hs c (ht.sublist.subset hc)

theorem patSlackLink_nil {prev : Option Char} {t : Str}
    (h : ∀ c ∈ t, c ≠ '<') : patSlackLink ⟨prev, t⟩ = [] := by
  unfold patSlackLink
  cases t with
  | nil => rfl
  | cons c r =>
    exact pbind_nil (pch_cons_nil
      (by simp [cEq]; exact h c (List.mem_cons_self _ _)))

theorem patSlackPlainLink_nil {prev : Option Char} {t : Str}
    (h : ∀ c ∈ t, c ≠ '<') : patSlackPlainLink ⟨prev, t⟩ = [] := by
  unfold patSlackPlainLink
  cases t with
  | nil => rfl
  | cons c r =>
    exact pbind_nil (pch_cons_nil
      (by simp [cEq]; exact h c (List.mem_cons_self _ _)))

theorem patSubteam_nil {prev : Option Char} {t : Str}
    (h : ∀ c ∈ t, c ≠ '<') : patSubteam ⟨prev, t⟩ = [] := by
  unfold patSubteam
  refine pbind_nil (plit_cons_nil ?_)
  intro d hd
  cases t with
  | nil => cases hd
  | cons c r =>
    cases hd
    simpa using h _ (List.mem_cons_self _ _)

theorem patSpecial_nil {prev : Option Char} {t : Str}
    (h : ∀ c ∈ t, c ≠ '<') : patSpecial ⟨prev, t⟩ = [] := by
  have hfail : ∀ d, t.head? = some d → (d == '<') = false := by
    intro d hd
    cases t with
    | nil => cases hd
    | cons c r =>
      cases hd
      simpa using h _ (List.mem_cons_self _ _)
  unfold patSpecial
  exact pbind_nil (palt_nil (plit_cons_nil hfail)
    (palt_nil (plit_cons_nil hfail) (plit_cons_nil hfail)))

theorem patMention_nil {prev : Option Char} {t : Str}
    (h : ∀ c ∈ t, c ≠ '<') : patMention ⟨prev, t⟩ = [] := by
  unfold patMention
  refine pbind_nil (plit_cons_nil ?_)
  intro d hd
  cases t with
  | nil => cases hd
  | cons c r =>
    cases hd
    simpa using h _ (List.mem_cons_self _ _)

theorem patEmoji_nil {prev : Option Char} {t : Str}
    (h : ∀ c ∈ t, c ≠ ':') : patEmoji ⟨prev, t⟩ = [] := by
  unfold patEmoji
  cases t with
  | nil => rfl
  | cons c r =>
    exact pbind_nil (pch_cons_nil
      (by simp [cEq]; exact h c (List.mem_cons_self _ _)))

theorem patHashTagCore_nil {prev : Option Char} {t : Str}
    (h : ∀ c ∈ t, c ≠ '#') : patHashTagCore ⟨prev, t⟩ = [] := by
  unfold patHashTagCore
  cases t with
  | nil => rfl
  | cons c r =>
    exact pbind_nil (pch_cons_nil
      (by simp [cEq]; exact h c (List.mem_cons_self _ _)))

theorem patHashTag_nil {prev : Option Char} {t : Str}
    (h : ∀ c ∈ t, c ≠ '#') : patHashTag ⟨prev, t⟩ = [] := by
  unfold patHashTag
  refine palt_nil ?_ ?_
  · show pbind pstart (fun _ => patHashTagCore) ⟨prev, t⟩ = []
    cases prev with
    | none =>
      simp [pbind, pstart, patHashTagCore_nil h]
    | some c =>
      simp [pbind, pstart]
  · cases t with
    | nil => rfl
    | cons c r =>
      cases hw : isWsp c with
      | false => exact pbind_nil (pch_cons_nil hw)
      | true =>
        have hr : ∀ d ∈ r, d ≠ '#' := fun d hd => h d (List.mem_cons_of_mem _ hd)
        simp [pbind, pch, hw, patHashTagCore_nil hr]

theorem replaceAll_id {w rep s : Str} {c0 : Char} {w' : Str} (hw : w = c0 :: w')
    (h : ∀ c ∈ s, c ≠ c0) : replaceAll w rep s = s := by
  unfold replaceAll
  refine resub_id _ _ (fun prev t ht => ?_)
  rw [hw]
  refine pbind_nil (plit_cons_nil ?_)
  intro d hd
  cases t with
  | nil => cases hd
  | cons c r =>
    cases hd
    simpa using suffix_all h ht _ (List.mem_cons_self _ _)

theorem runLen_zero {f : Char → Bool} {s : Str} (h : ∀ c, s.head? = some c → f c = false) :
    runLen f s = 0 := by
  cases s with
  | nil => rfl
  | cons c r => simp [runLen, h c rfl]

theorem patWsRun_nowsp {prev : Option Char} {t : Str}
    (h : ∀ c, t.head? = some c → isWsp c = false) : patWsRun ⟨prev, t⟩ = [] := by
  unfold patWsRun prunGreedyU prunGreedy
  refine pbind_nil ?_
  simp [runLen_zero h]

theorem resubAux_ws_id (fuel : Nat) (prev : Option Char) (s : Str)
    (hAll : ∀ c ∈ s, isWsp c = true → c = ' ')
    (hD : noDoubleSpace s = true) :
    resubAux patWsRun fuel prev s = s := by
  induction fuel generalizing prev s with
  | zero => rfl
  | succ fuel ih =>
    cases s with
    | nil => rfl
    | cons c r =>
      have hAllr : ∀ c ∈ r, isWsp c = true → c = ' ' :=
        fun d hd => hAll d (List.mem_cons_of_mem _ hd)
      have hDr : noDoubleSpace r = true := by
        cases r with
        | nil => rfl
        | cons d rr =>
          unfold noDoubleSpace at hD
          exact (Bool.and_eq_true _ _ ▸ hD).2
      unfold resubAux
      cases hw : isWsp c with
      | false =>
        rw [patWsRun_nowsp (fun d hd => by cases hd; exact hw)]
        simp only [List.head?_nil]
        rw [ih (some c) r hAllr hDr]
      | true =>
        have hcs : c = ' ' := hAll c (List.mem_cons_self _ _) hw
        have hrhead : ∀ d, r.head? = some d → isWsp d = false := by
          intro d hd
          cases r with
          | nil => cases hd
          | cons e rr =>
            cases hd
            cases he : isWsp d with
            | false => rfl
            | true =>
              have hds : d = ' ' := hAllr d (List.mem_cons_self _ _) he
              unfold noDoubleSpace at hD
              rw [hcs, hds] at hD
              simp at hD
        have hrun : runLen isWsp (c :: r) = 1 := by
          simp [runLen, hw, runLen_zero hrhead]
        have hpat : patWsRun ⟨prev, c :: r⟩ = [([' '], ⟨some c, r⟩)] := by
          unfold patWsRun prunGreedyU prunGreedy
          simp only [pbind, pmap, ppure, hrun]
          have hmin : min 1 (c :: r).length = 1 := by
            simp [List.length_cons]
          rw [hmin]
          simp [runTake, List.range', List.flatMap]
        rw [hpat]
        simp only [List.head?_cons]
        have hlt : r.length < (c :: r).length := by simp
        rw [if_pos hlt]
        rw [ih (some c) r hAllr hDr]
        rw [hcs]
        rfl

theorem dropWhile_id {s : Str} (h : ∀ c, s.head? = some c → isWsp c = false) :
    s.dropWhile isWsp = s := by
  cases s with
  | nil => rfl
  | cons c r => simp [List.dropWhile_cons, h c rfl]

theorem stripStr_id {s : Str}
    (hAll : ∀ c ∈ s, isWsp c = true → c = ' ')
    (hHead : ¬s.head? = some ' ') (hLast : ¬s.getLast? = some ' ') :
    stripStr s = s := by
  unfold stripStr
  have h1 : s.dropWhile isWsp = s := by
    refine dropWhile_id (fun c hc => ?_)
    cases hw : isWsp c with
    | false => rfl
    | true =>
      exfalso
      apply hHead
      rw [hc, hAll c ?_ hw]
      cases s with
      | nil => cases hc
      | cons d r =>
        cases hc
        exact List.mem_cons_self _ _
  rw [h1]
  have h2 : s.reverse.dropWhile isWsp = s.reverse := by
    refine dropWhile_id (fun c hc => ?_)
    rw [List.head?_reverse] at hc
    cases hw : isWsp c with
    | false => rfl
    | true =>
      exfalso
      apply hLast
      rw [hc]
      have hcmem : c ∈ s := by
        obtain ⟨hne, hx⟩ := List.mem_getLast?_eq_getLast (Option.mem_def.mpr hc)
        rw [hx]
        exact List.getLast_mem hne
      rw [hAll c hcmem hw]
  rw [h2, List.reverse_reverse]

/-- The Text Normalizer leaves already-clean text unchanged. -/
theorem clean_id {s : Str} (h : cleanShape s = true) : clean_slack_text s = s := by
  unfold cleanShape at h
  simp only [Bool.and_eq_true] at h
  obtain ⟨⟨⟨h1, h2⟩, h3⟩, h4⟩ := h
  have hchar : ∀ c ∈ s,
      (!(c == '<' || c == ':' || c == '@' || c == '#') &&
        (!(isWsp c) || c == ' ')) = true := List.all_eq_true.mp h1
  have hlt : ∀ c ∈ s, c ≠ '<' := by
    intro c hc
    have := (Bool.and_eq_true _ _ ▸ hchar c hc).1
    intro he
    rw [he] at this
    simp at this
  have hcol : ∀ c ∈ s, c ≠ ':' := by
    intro c hc
    have := (Bool.and_eq_true _ _ ▸ hchar c hc).1
    intro he
    rw [he] at this
    simp at this
  have hat : ∀ c ∈ s, c ≠ '@' := by
    intro c hc
    have := (Bool.and_eq_true _ _ ▸ hchar c hc).1
    intro he
    rw [he] at this
    simp at this
  have hhash : ∀ c ∈ s, c ≠ '#' := by
    intro c hc
    have := (Bool.and_eq_true _ _ ▸ hchar c hc).1
    intro he
    rw [he] at this
    simp at this
  have hwsp : ∀ c ∈ s, isWsp c = true → c = ' ' := by
    intro c hc hw
    have := (Bool.and_eq_true _ _ ▸ hchar c hc).2
    rw [hw] at this
    simpa using this
  have hhead : ¬s.head? = some ' ' := by
    intro he
    rw [he] at h3
    simp at h3
  have hlast : ¬s.getLast? = some ' ' := by
    intro he
    rw [he] at h4
    simp at h4
  unfold clean_slack_text
  cases hs : s.isEmpty with
  | true =>
    rw [if_pos rfl]
    rw [List.isEmpty_iff] at hs
    exact hs.symm
  | false =>
    rw [if_neg (by simp [hs])]
    dsimp only
    rw [resub_id patSlackLink s (fun prev t ht => patSlackLink_nil (suffix_all hlt ht))]
    rw [resub_id patSlackPlainLink s
      (fun prev t ht => patSlackPlainLink_nil (suffix_all hlt ht))]
    rw [resub_id patSubteam s (fun prev t ht => patSubteam_nil (suffix_all hlt ht))]
    rw [resub_id patSpecial s (fun prev t ht => patSpecial_nil (suffix_all hlt ht))]
    rw [resub_id patMention s (fun prev t ht => patMention_nil (suffix_all hlt ht))]
    rw [resub_id patEmoji s (fun prev t ht => patEmoji_nil (suffix_all hcol ht))]
    rw [@replaceAll_id ("@here".toList) [] s '@' ("here".toList) rfl hat]
    rw [@replaceAll_id ("@channel".toList) [] s '@' ("channel".toList) rfl hat]
    rw [resub_id patHashTag s (fun prev t ht => patHashTag_nil (suffix_all hhash ht))]
    show stripStr (resubAux patWsRun (s.length + 1) none s) = s
    rw [resubAux_ws_id (s.length + 1) none s hwsp h2]
    exact stripStr_id hwsp hhead hlast

theorem mem_fold_dedup {kv : Str × (Release × ℚ)} {l : List (Release × ℚ)} :
    ∀ {m : List (Str × (Release × ℚ))},
      kv ∈ List.foldl dedupStep m l → kv ∈ m ∨ kv.2 ∈ l := by
  induction l with
  | nil => exact fun h => Or.inl h
  | cons y l ih =>
    intro m h
    rcases ih h with h1 | h1
    · rcases mem_dictUpsert h1 with h2 | h2
      · exact Or.inl h2
      · right
        rw [h2]
        exact List.mem_cons_self _ _
    · exact Or.inr (List.mem_cons_of_mem _ h1)

theorem insDesc_perm (y : Release × ℚ) (l : List (Release × ℚ)) :
    List.Perm (insDesc y l) (y :: l) := by
  induction l with
  | nil => exact List.Perm.refl _
  | cons z l ih =>
    unfold insDesc
    split
    · exact List.Perm.refl _
    · exact (List.Perm.cons z ih).trans (List.Perm.swap _ _ _)

theorem foldl_insDesc_perm (l : List (Release × ℚ)) (acc : List (Release × ℚ)) :
    List.Perm (l.foldl (fun acc x => insDesc x acc) acc) (acc ++ l) := by
  induction l generalizing acc with
  | nil => simp
  | cons y l ih =>
    simp only [List.foldl_cons]
    refine (ih _).trans ?_
    refine (List.Perm.append_right l (insDesc_perm y acc)).trans ?_
    exact List.perm_middle.symm

theorem sortDesc_perm (l : List (Release × ℚ)) : List.Perm (sortDesc l) l := by
  unfold sortDesc
  simpa using foldl_insDesc_perm l []

/-! The claim theorems. -/

/-- Claim C5: a per-message record (after optional reply merging) is
accepted into the release list exactly when it has a non-empty,
non-generic app and at least one of version, status, key changes; records
failing the test are silently dropped (the step is a total function
returning none). -/
theorem c5_acceptance_filter (fmtDate : ℚ → Str) (msg : Msg) :
    processMsg fmtDate msg =
      if ((isThreadRoot msg || isSingle msg) &&
          acceptSpec (assembled fmtDate msg)) = true then
        some (assembled fmtDate msg, msg.ts)
      else none :=
  processMsg_char fmtDate msg

/-- Claim C6: when the root app is unset or generic, the merged app is
chosen by the resolution order of appResolveSpec: the latest explicit
candidate from the replies, else the hint-dictionary match on the joined
cleaned reply text, else the first explicit-marker scan; and the concrete
scenario with the generic root and the reply naming Block Tok yields
Block Tok. -/
theorem c6_reply_app_resolution :
    (∀ (base : Release) (replies : List Str),
      (!truthy base.app || is_generic base.app) = true →
      (merge_replies_into_release base replies).app =
        appResolveSpec (latestExplicitApp replies)
          (replies.map clean_slack_text) base.app) ∧
    (merge_replies_into_release
        (parse_release_from_text ("New build is ready!".toList))
        [("this is Block Tok".toList)]).app = some ("Block Tok".toList) := by
  constructor
  · intro base replies h
    rw [merge_app, if_pos h]
  · decide

/-- Witness for claim C6: the resolution equation applied at an empty base
record and the Block Tok reply. -/
theorem c6_witness :
    (merge_replies_into_release emptyRelease [("this is Block Tok".toList)]).app =
      appResolveSpec (latestExplicitApp [("this is Block Tok".toList)])
        ([("this is Block Tok".toList)].map clean_slack_text) emptyRelease.app :=
  c6_reply_app_resolution.1 emptyRelease [("this is Block Tok".toList)] (by decide)

/-- Claim C7 counterexample: in the key-value scan the claim says the
first match per field wins for every field, but two Status lines store the
value of the last one. -/
theorem c7_counterexample :
    (parse_release_from_text c7body).status = some ("Live".toList) ∧
    ¬(parse_release_from_text c7body).status = some ("QA".toList) := by
  constructor
  · decide
  · decide

/-- Claim C7 (amended): in the key-value scan, Version, Build and Platform
are stored only while the field is still empty (so the first match whose
stored value is non-empty wins), while Status and Rollout are stored
unconditionally (the last matching line wins). -/
theorem c7_kv_scan_per_field (res : Release) (lines : List Str) :
    (kvLoop res lines).version =
      kvFirstWins res.version (lines.filterMap (rematch? patVersionKV)) ∧
    (kvLoop res lines).build =
      kvFirstWins res.build
        ((lines.filterMap (rematch? patBuildKV)).map
          (fun b => (clean_slack_text b).dropWhile (cEq '#'))) ∧
    (kvLoop res lines).platform =
      kvFirstWins res.platform
        ((lines.filterMap (rematch? patPlatformKV)).map clean_slack_text) ∧
    (kvLoop res lines).status =
      kvLastWins res.status
        ((lines.filterMap (rematch? patStatusKV)).map clean_slack_text) ∧
    (kvLoop res lines).current_rollout =
      kvLastWins res.current_rollout
        ((lines.filterMap (rematch? patRolloutKV)).map clean_slack_text) :=
  ⟨kvLoop_version lines res, kvLoop_build lines res, kvLoop_platform lines res,
   kvLoop_status lines res, kvLoop_current lines res⟩

/-- Claim C8 counterexample: the claim says only app (when generic) and the
status and rollout fields may be replaced during merging, but a build-card
reply replaces a non-empty build. -/
theorem c8_counterexample :
    c8base.build = some ("481".toList) ∧
    (merge_replies_into_release c8base [c8reply]).build = some ("500".toList) := by
  constructor
  · decide
  · decide

/-- Claim C8 (amended): during reply merging, published and initial
rollout are untouched, key changes and timeline only accumulate, a
non-empty version and platform are never changed, and a non-empty
non-generic app is never changed; status, rollout and current rollout may
be overwritten by explicit reply lines, and build may additionally be
overwritten (even cleared) by a build-card reply. -/
theorem c8_merge_invariants (base : Release) (replies : List Str) :
    (merge_replies_into_release base replies).published = base.published ∧
    (merge_replies_into_release base replies).initial_rollout = base.initial_rollout ∧
    (∃ t, (merge_replies_into_release base replies).key_changes =
      base.key_changes ++ t) ∧
    (∃ t, (merge_replies_into_release base replies).timeline = base.timeline ++ t) ∧
    (truthy base.version = true →
      (merge_replies_into_release base replies).version = base.version) ∧
    (truthy base.platform = true →
      (merge_replies_into_release base replies).platform = base.platform) ∧
    (truthy base.app = true → is_generic base.app = false →
      (merge_replies_into_release base replies).app = base.app) :=
  merge_pres base replies

/-- Witness for claim C8: the invariants applied to the Spades record and
the build-card reply. -/
theorem c8_witness :
    (merge_replies_into_release c1record [c8reply]).version = c1record.version ∧
    (merge_replies_into_release c1record [c8reply]).app = c1record.app := by
  have h := c8_merge_invariants c1record [c8reply]
  exact ⟨h.2.2.2.2.1 (by decide), h.2.2.2.2.2.2 (by decide) (by decide)⟩

/-- Claim C9 counterexample: the Text Normalizer is not idempotent; the
at-here removal can create a fresh emoji code that only a second pass
deletes. -/
theorem c9_counterexample :
    ¬clean_slack_text (clean_slack_text c9cex) = clean_slack_text c9cex := by
  decide

/-- Claim C9 (amended): the Text Normalizer is a total function returning
the empty string on empty input, and it returns already-clean text (no
markup trigger characters, whitespace only as single internal spaces)
unchanged, so it is idempotent whenever its output is clean in that sense;
full idempotence fails (see the counterexample). -/
theorem c9_normalizer_clean_identity :
    clean_slack_text [] = [] ∧
    (∀ s, cleanShape s = true → clean_slack_text s = s) ∧
    (∀ s, cleanShape (clean_slack_text s) = true →
      clean_slack_text (clean_slack_text s) = clean_slack_text s) :=
  ⟨rfl, fun _ h => clean_id h, fun _ h => clean_id h⟩

/-- Witness for claim C9: identity on a concrete clean string. -/
theorem c9_witness :
    clean_slack_text ("Spades is live".toList) = ("Spades is live".toList) :=
  c9_normalizer_clean_identity.2.1 ("Spades is live".toList) (by decide)

/-- Claim C1 counterexample: the Record Builder does not store the raw
key-value rollout in the rollout field; that field stays unset. -/
theorem c1_counterexample :
    ¬(parse_release_from_text c1body).rollout = some ("100%".toList) := by
  decide

/-- Claim C1 (amended): the eight-line Spades body parses to the claimed
app, version, build, platform, status and key changes; the raw value 100%
from the Rollout line is stored verbatim in current_rollout, while the
rollout field is left unset by the Record Builder and only the
orchestrator percent fallback later sets it to the reformatted
100% staged rollout. -/
theorem c1_record_builder_roundtrip :
    parse_release_from_text c1body = c1record ∧
    (pctFill c1body c1record).rollout = some ("100% staged rollout".toList) := by
  constructor
  · decide
  · decide

/-- Claim C2: a full-announcement match is authoritative and
self-contained; the Record Builder returns the announcement record at
once, so no other extractor field is populated, and the concrete Klondike
Solitaire sentence yields exactly the claimed record. -/
theorem c2_announcement_short_circuit :
    (∀ (raw : Str) (g : Str × Str × Str × Str),
      research? patAnnounce (clean_slack_text raw) = some g →
      parse_release_from_text raw = announceRelease g) ∧
    parse_release_from_text c2body =
      { app := some ("Klondike Solitaire".toList), version := some ("5.0.1".toList),
        build := none, platform := some ("Android".toList),
        status := some ("Ready for rollout".toList), published := none,
        rollout := some ("10% staged rollout".toList),
        initial_rollout := some ("10%".toList), current_rollout := none,
        key_changes := [], timeline := [] } := by
  constructor
  · intro raw g h
    unfold parse_release_from_text
    dsimp only
    rw [h]
  · decide

/-- Witness for claim C2: the announcement version wins over a conflicting
key-value Version line in the same message. -/
theorem c2_witness :
    parse_release_from_text c2bodyKV =
      announceRelease (("Klondike Solitaire".toList),
        ("5.0.1".toList), ("10".toList), ("Android".toList)) :=
  c2_announcement_short_circuit.1 c2bodyKV
    (("Klondike Solitaire".toList), ("5.0.1".toList), ("10".toList), ("Android".toList))
    (by decide)

/-- Claim C3: no record in the final output of parse_releases has a
missing, empty or generic app, and the generic thread root with a cue-free
reply yields no accepted record. -/
theorem c3_no_generic_app_in_output :
    (∀ (fmtDate : ℚ → Str) (msgs : List Msg) (r : Release × ℚ),
      r ∈ parse_releases fmtDate msgs →
      truthy r.1.app = true ∧ genericTitlesMatch (r.1.app.getD []) = false) ∧
    parse_releases (fun _ => []) [⟨c3root, 5, some 5, [c3reply]⟩] = [] := by
  constructor
  · intro fmt msgs r hr
    unfold parse_releases dedupAndSort at hr
    rw [mem_sortDesc, List.mem_map] at hr
    obtain ⟨kv, hkv, hsnd⟩ := hr
    have hmem : kv.2 ∈ msgs.filterMap (processMsg fmt) := by
      rcases mem_fold_dedup hkv with h | h
      · cases h
      · exact h
    rw [List.mem_filterMap] at hmem
    obtain ⟨msg, _, hp⟩ := hmem
    obtain ⟨hrel, hacc⟩ := processMsg_some hp
    unfold acceptSpec at hacc
    have h1 := (Bool.and_eq_true _ _ ▸ hacc).1
    have h2 := Bool.and_eq_true _ _ ▸ h1
    rw [← hsnd, hrel]
    exact ⟨h2.1, by simpa using h2.2⟩
  · decide

/-- Witness for claim C3: the property at a concrete accepted record. -/
theorem c3_witness :
    truthy relW.1.app = true ∧ genericTitlesMatch (relW.1.app.getD []) = false :=
  c3_no_generic_app_in_output.1 (fun _ => []) [msgW] relW (by decide)

/-- Claim C4: the Deduplicator groups accepted records by the string key
app-hyphen-version, keeps per group exactly a record of greatest timestamp
taken unchanged from the input, covers every input key, returns pairwise
distinct keys sorted by timestamp descending, and for two same-key records
with timestamps T1 less than T2 returns exactly the T2 record. -/
theorem c4_dedup_keeps_latest :
    (∀ l : List (Release × ℚ),
      (∀ x, x ∈ dedupAndSort l → x ∈ l) ∧
      (∀ x, x ∈ dedupAndSort l → ∀ y, y ∈ l → relKey y = relKey x → y.2 ≤ x.2) ∧
      (∀ y, y ∈ l → ∃ x, x ∈ dedupAndSort l ∧ relKey x = relKey y) ∧
      (dedupAndSort l).Pairwise (fun a b => relKey a ≠ relKey b) ∧
      (dedupAndSort l).Pairwise (fun a b => b.2 ≤ a.2)) ∧
    (∀ r1 r2 : Release × ℚ, relKey r1 = relKey r2 → r1.2 < r2.2 →
      dedupAndSort [r1, r2] = [r2]) := by
  constructor
  · intro l
    have hnodup : ((List.foldl dedupStep [] l).map (fun kv => kv.1)).Nodup :=
      keys_nodup_fold l [] (by simp)
    have hkeyc : ∀ kv ∈ List.foldl dedupStep [] l, kv.1 = relKey kv.2 :=
      fun kv hkv => entry_key_fold (fun e he => absurd he (List.not_mem_nil e)) hkv
    have hElem : ∀ x, x ∈ dedupAndSort l →
        ∃ kv, kv ∈ List.foldl dedupStep [] l ∧ kv.2 = x := by
      intro x hx
      unfold dedupAndSort at hx
      rw [mem_sortDesc, List.mem_map] at hx
      exact hx
    have hRm : ∀ x, x ∈ dedupAndSort l →
        ∃ k, k = relKey x ∧ List.foldl (rmStep k) none l = some x := by
      intro x hx
      obtain ⟨kv, hkv, hsnd⟩ := hElem x hx
      refine ⟨kv.1, by rw [hkeyc kv hkv, hsnd], ?_⟩
      have hlk : List.lookup kv.1 (List.foldl dedupStep [] l) = some kv.2 :=
        lookup_of_mem_nodup hnodup hkv
      rw [lookup_dedup_fold] at hlk
      rw [hsnd] at hlk
      exact hlk
    refine ⟨?_, ?_, ?_, ?_, sortDesc_sorted _⟩
    · intro x hx
      obtain ⟨k, _, hf⟩ := hRm x hx
      rcases rmFold_mem k l none x hf with h | h
      · cases h
      · exact h
    · intro x hx y hy hk
      obtain ⟨k, hkx, hf⟩ := hRm x hx
      exact (rmFold_ge k l none x hf).2 y hy (by rw [hk, ← hkx])
    · intro y hy
      have hsome : (List.foldl (rmStep (relKey y)) none l).isSome = true :=
        rmFold_isSome (relKey y) l none (Or.inr ⟨y, hy, rfl⟩)
      obtain ⟨v, hv⟩ := Option.isSome_iff_exists.mp hsome
      have hlk : List.lookup (relKey y) (List.foldl dedupStep [] l) = some v := by
        rw [lookup_dedup_fold]
        exact hv
      have hment : ((relKey y), v) ∈ List.foldl dedupStep [] l := mem_of_lookup hlk
      refine ⟨v, ?_, ?_⟩
      · unfold dedupAndSort
        rw [mem_sortDesc, List.mem_map]
        exact ⟨_, hment, rfl⟩
      · exact (hkeyc _ hment).symm
    · have hmapeq : (List.foldl dedupStep [] l).map (fun kv => kv.1) =
          ((List.foldl dedupStep [] l).map (fun kv => kv.2)).map relKey := by
        rw [List.map_map]
        exact List.map_congr_left hkeyc
      rw [hmapeq] at hnodup
      have hpw : ((List.foldl dedupStep [] l).map (fun kv => kv.2)).Pairwise
          (fun a b => relKey a ≠ relKey b) := List.pairwise_map.mp hnodup
      unfold dedupAndSort
      exact ((sortDesc_perm _).pairwise_iff (fun h hc => h hc.symm)).mpr hpw
  · intro r1 r2 hk hlt
    unfold dedupAndSort
    have hfold : List.foldl dedupStep [] [r1, r2] = [(relKey r1, r2)] := by
      simp [dedupStep, dictUpsert, hk, hlt]
    rw [hfold]
    rfl

/-- Witness for claim C4: two same-key records reduce to the later one. -/
theorem c4_witness : dedupAndSort [wr1, wr2] = [wr2] :=
  c4_dedup_keeps_latest.2 wr1 wr2 (by decide) (by decide)

/-- Claim C10: the Record Builder always produces a non-empty status (the
heuristic falls back to Unknown), so a standalone message passes the
substantive-field test automatically and can be dropped only because of
its app field. -/
theorem c10_status_always_set :
    (∀ text : Str, ∃ s, (parse_release_from_text text).status = some s ∧ s ≠ []) ∧
    (∀ (fmtDate : ℚ → Str) (msg : Msg), msg.thread_ts = none →
      (processMsg fmtDate msg).isSome =
        (truthy (assembled fmtDate msg).app &&
          !genericTitlesMatch ((assembled fmtDate msg).app.getD []))) := by
  constructor
  · intro text
    exact truthy_exists (parse_status_truthy text)
  · intro fmt msg h
    have hsingle : isSingle msg = true := by
      unfold isSingle
      rw [h]
      rfl
    have hstat : truthy (assembled fmt msg).status = true :=
      assembled_single_status fmt msg h
    rw [processMsg_char]
    have hcond : (isThreadRoot msg || isSingle msg) = true := by
      rw [hsingle]
      simp
    cases happ : (truthy (assembled fmt msg).app &&
        !genericTitlesMatch ((assembled fmt msg).app.getD [])) with
    | true =>
      have hspec : acceptSpec (assembled fmt msg) = true := by
        unfold acceptSpec
        rw [happ, hstat]
        simp
      rw [hcond, hspec]
      rfl
    | false =>
      have hspec : acceptSpec (assembled fmt msg) = false := by
        unfold acceptSpec
        rw [happ]
        rfl
      rw [hcond, hspec]
      rfl

/-- Witness for claim C10 at a concrete standalone message. -/
theorem c10_witness :
    (processMsg (fun _ => []) msgW).isSome =
      (truthy (assembled (fun _ => []) msgW).app &&
        !genericTitlesMatch ((assembled (fun _ => []) msgW).app.getD [])) :=
  c10_status_always_set.2 (fun _ => []) msgW rfl

end ReleaseTracker
